import Mathlib

/-!
Verification development for the pydantic-ui repository.

The Python source is shallowly embedded: JSON-compatible dictionaries
(as produced and consumed by `pydantic_ui/schema.py` and
`pydantic_ui/handlers.py`) are modelled by the inductive `JVal`;
Python type annotations are modelled by `PyType`; pydantic `FieldInfo`
objects by the structure `FieldInfo` (its `annotation` attribute is
named `ann` here); code that can raise an uncaught exception is
modelled with `Except String`.
-/

namespace PydanticUI

/-- A JSON-compatible Python value: the payloads of the schema and data
dictionaries handled by the source.  Python `dict`s are association
lists in insertion order; Python `datetime` objects are represented by
their ISO string (their `isoformat()` is then the identity). -/
inductive JVal where
  | null
  | b (v : Bool)
  | i (v : Int)
  | s (v : String)
  | arr (xs : List JVal)
  | obj (kvs : List (String × JVal))


/-- Python `d[k]`/`d.get(k)` on an embedded dict: first entry with the key. -/
def getKey (k : String) : JVal → Option JVal
  | .obj kvs => kvs.lookup k
  | _ => none

/-- Python `d[k] = v` on an association list: replace the first entry with
key `k` in place, else append at the end (dict insertion-order semantics). -/
def setEntry (kvs : List (String × JVal)) (k : String) (v : JVal) :
    List (String × JVal) :=
  match kvs with
  | [] => [(k, v)]
  | (k0, v0) :: rest =>
      if k0 = k then (k0, v) :: rest else (k0, v0) :: setEntry rest k v

/-- Python `d[k] = v` on an embedded dict value. Non-dict values are
returned unchanged (unreachable in the source). -/
def setKey (k : String) (v : JVal) : JVal → JVal
  | .obj kvs => .obj (setEntry kvs k v)
  | other => other

/-- Python `d[k] = v` for a `str -> int` dict (the discriminator mapping). -/
def insertNat (kvs : List (String × Nat)) (k : String) (v : Nat) :
    List (String × Nat) :=
  match kvs with
  | [] => [(k, v)]
  | (k0, v0) :: rest =>
      if k0 = k then (k0, v) :: rest else (k0, v0) :: insertNat rest k v

/-- Python `str(v)` for the JSON-compatible values that occur as literal
discriminator values. -/
def pyStr : JVal → String
  | .null => "None"
  | .b true => "True"
  | .b false => "False"
  | .i v => toString v
  | .s v => v
  | .arr _ => "<list>"
  | .obj _ => "<dict>"

/-- Python `repr(v)` for literal values (used to compose `Literal[...]`
type-name strings). -/
def pyRepr : JVal → String
  | .null => "None"
  | .b true => "True"
  | .b false => "False"
  | .i v => toString v
  | .s v => "'" ++ v ++ "'"
  | .arr _ => "<list>"
  | .obj _ => "<dict>"

/-- Python `str.title()`: the first letter of every alphabetic run is
upper-cased, the rest lower-cased. -/
def pyTitle (str : String) : String :=
  (str.toList.foldl
    (fun (acc : List Char × Bool) c =>
      if c.isAlpha then
        (acc.1 ++ [if acc.2 then c.toLower else c.toUpper], true)
      else
        (acc.1 ++ [c], false))
    ([], false)).1.asString

/-- Python `s.replace("_", " ")` followed by `.title()`: the default title
of a schema field derived from its name. -/
def humanize (name : String) : String :=
  pyTitle ((name.replace "_" " "))

/-- `pydantic_ui.config.ViewDisplay`: per-view display overrides.
The source dataclass has exactly the three fields below (notably, it has
no `icon` attribute, which `_merge_display_configs` nevertheless reads). -/
structure ViewDisplay where
  title : Option String := none
  subtitle : Option String := none
  help_text : Option String := none


/-- `ViewDisplay.model_dump`. -/
def ViewDisplay.dump (v : ViewDisplay) : JVal :=
  .obj [("title", v.title.elim JVal.null JVal.s),
        ("subtitle", v.subtitle.elim JVal.null JVal.s),
        ("help_text", v.help_text.elim JVal.null JVal.s)]

/-- `pydantic_ui.config.DisplayConfig`. -/
structure DisplayConfig where
  title : Option String := none
  subtitle : Option String := none
  help_text : Option String := none
  tree : Option ViewDisplay := none
  detail : Option ViewDisplay := none
  table : Option ViewDisplay := none
  card : Option ViewDisplay := none


/-- `DisplayConfig.model_dump`. -/
def DisplayConfig.dump (d : DisplayConfig) : JVal :=
  .obj [("title", d.title.elim JVal.null JVal.s),
        ("subtitle", d.subtitle.elim JVal.null JVal.s),
        ("help_text", d.help_text.elim JVal.null JVal.s),
        ("tree", (d.tree.map ViewDisplay.dump).getD .null),
        ("detail", (d.detail.map ViewDisplay.dump).getD .null),
        ("table", (d.table.map ViewDisplay.dump).getD .null),
        ("card", (d.card.map ViewDisplay.dump).getD .null)]

/-- `pydantic_ui.config.FieldConfig`.  `Renderer` is a `str`-enum in the
source, so enum members compare equal to their value strings; the
`renderer` attribute is therefore modelled as the plain value string,
with `"auto"` standing for the sentinel `Renderer.AUTO`. -/
structure FieldConfig where
  renderer : String := "auto"
  display : Option DisplayConfig := none
  placeholder : Option String := none
  hidden : Bool := false
  read_only : Bool := false
  visible_when : Option String := none
  options_from : Option String := none
  props : List (String × JVal) := []


/-- `pydantic_ui.schema.build_ui_config`. -/
def build_ui_config (fc : FieldConfig) : JVal :=
  .obj [("renderer", .s fc.renderer),
        ("display", (fc.display.map DisplayConfig.dump).getD .null),
        ("placeholder", fc.placeholder.elim JVal.null JVal.s),
        ("hidden", .b fc.hidden),
        ("read_only", .b fc.read_only),
        ("visible_when", fc.visible_when.elim JVal.null JVal.s),
        ("options_from", fc.options_from.elim JVal.null JVal.s),
        ("props", .obj fc.props)]

/-- The inner `merge_view` of `pydantic_ui.schema._merge_display_configs`.
When both views are present the source evaluates `override_view.icon`;
`ViewDisplay` has no `icon` attribute, so that branch raises
`AttributeError` — modelled as an `Except.error`. -/
def merge_view (base_view override_view : Option ViewDisplay) :
    Except String (Option ViewDisplay) :=
  match override_view with
  | none => .ok base_view
  | some o =>
      match base_view with
      | none => .ok (some o)
      | some _ =>
          .error "AttributeError: ViewDisplay object has no attribute icon"

/-- `pydantic_ui.schema._merge_display_configs`. -/
def mergeDisplayConfigs (base override : DisplayConfig) :
    Except String DisplayConfig :=
  match merge_view base.tree override.tree with
  | .error e => .error e
  | .ok tr =>
    match merge_view base.detail override.detail with
    | .error e => .error e
    | .ok de =>
      match merge_view base.table override.table with
      | .error e => .error e
      | .ok ta =>
        match merge_view base.card override.card with
        | .error e => .error e
        | .ok ca =>
            .ok { title := if override.title.isSome then override.title
                           else base.title
                  subtitle := if override.subtitle.isSome then override.subtitle
                              else base.subtitle
                  help_text := if override.help_text.isSome then
                                 override.help_text
                               else base.help_text
                  tree := tr, detail := de, table := ta, card := ca }

/-- A metadata item carried by `Annotated[...]` / `FieldInfo.metadata`:
either a `FieldConfig`, one of the `annotated_types` constraint markers
(each exposing exactly one attribute), or a discriminator marker. -/
inductive FieldMeta where
  | fieldConfig (fc : FieldConfig)
  | gtM (v : JVal)
  | geM (v : JVal)
  | ltM (v : JVal)
  | leM (v : JVal)
  | minLenM (v : JVal)
  | maxLenM (v : JVal)
  | patternM (v : JVal)
  | multipleOfM (v : JVal)
  | discM (field : String)

/-- A Python type annotation as inspected by `pydantic_ui/schema.py`
through `get_origin`/`get_args`.  A nested record class is a `modelRef`
resolved through an environment, so self-referential and mutually
recursive record declarations are expressible. -/
inductive PyType where
  | noneT
  | strT
  | intT
  | floatT
  | boolT
  | datetimeT
  | dateT
  | timeT
  | literalT (vals : List JVal)
  | enumT (name : String) (vals : List JVal)
  | listT (elem : PyType)
  | setT (elem : PyType)
  | tupleT (elem : PyType)
  | dictT (key : PyType) (val : PyType)
  | unionT (args : List PyType)
  | annotated (base : PyType) (metas : List FieldMeta)
  | modelRef (name : String)

/-- Python `a is not type(None)`. -/
def notNoneType : PyType → Bool
  | .noneT => false
  | _ => true

/-- A pydantic `FieldInfo`.  `ann` models the `annotation` attribute
(`none` models a missing annotation, i.e. Python `None`); `default`
is `none` when the attribute is the `PydanticUndefined` sentinel;
`default_factory` is the factory call's result (`Except.error` models a
raising factory); `discriminator` is the field name of a string
discriminator, or `none` (callable discriminators are not needed by any
claim and are represented through `FieldMeta.discM` / this field being
a plain string in the source's reachable paths). -/
structure FieldInfo where
  ann : Option PyType := none
  metadata : List FieldMeta := []
  title : Option String := none
  description : Option String := none
  default : Option JVal := none
  default_factory : Option (Except Unit JVal) := none
  discriminator : Option String := none

/-- A record class declaration: `__name__`, `__doc__` and
`model_fields` in declaration order. -/
structure ModelDef where
  name : String
  doc : Option String := none
  fields : List (String × FieldInfo) := []

/-- The set of record classes in scope: every `modelRef` resolves (in
Python a referenced class always exists). -/
def Env : Type := String → ModelDef

/-- `pydantic_ui.schema.is_optional_type`. -/
def is_optional_type (a : Option PyType) : Bool :=
  match a with
  | none => true
  | some t =>
      -- Unwrap Annotated types first
      let t1 := match t with
        | .annotated base _ => base
        | other => other
      match t1 with
      | .unionT args => args.any (fun a => !(notNoneType a))
      | _ => false

/-- `pydantic_ui.schema.is_pydantic_model`. -/
def is_pydantic_model : PyType → Bool
  | .modelRef _ => true
  | _ => false

/-- `pydantic_ui.schema.get_json_type`.  `bool` is checked through the
direct dict lookup before any subclass consideration, so it maps to
`"boolean"` despite being a subclass of `int`. -/
def get_json_type : PyType → String
  | .noneT => "null"
  | .datetimeT | .dateT | .timeT => "string"
  | .enumT _ _ => "string"
  | .strT => "string"
  | .intT => "integer"
  | .floatT => "number"
  | .boolT => "boolean"
  | .listT _ | .setT _ | .tupleT _ => "array"
  | .dictT _ _ => "object"
  | _ => "string"

mutual

/-- `pydantic_ui.schema.get_python_type_name`. -/
def get_python_type_name : PyType → String
  | .noneT => "None"
  | .strT => "str"
  | .intT => "int"
  | .floatT => "float"
  | .boolT => "bool"
  | .datetimeT => "datetime"
  | .dateT => "date"
  | .timeT => "time"
  | .literalT vals =>
      "Literal[" ++ String.intercalate ", " (vals.map pyRepr) ++ "]"
  | .enumT name _ => name
  | .listT e => "list[" ++ get_python_type_name e ++ "]"
  | .setT e => "set[" ++ get_python_type_name e ++ "]"
  | .tupleT e => "tuple[" ++ get_python_type_name e ++ "]"
  | .dictT k v =>
      "dict[" ++ get_python_type_name k ++ ", " ++ get_python_type_name v ++ "]"
  | .unionT args =>
      "Union[" ++ String.intercalate ", " (pyTypeNames args) ++ "]"
  | .annotated base _ => "Annotated[" ++ get_python_type_name base ++ "]"
  | .modelRef name => name

/-- `get_python_type_name` mapped over a list of types. -/
def pyTypeNames : List PyType → List String
  | [] => []
  | t :: rest => get_python_type_name t :: pyTypeNames rest

end

/-- `pydantic_ui.schema.get_variant_name`: for generic container types
the composed name, otherwise the `__name__`. -/
def get_variant_name : PyType → String
  | .listT e => "list[" ++ get_python_type_name e ++ "]"
  | .setT e => "set[" ++ get_python_type_name e ++ "]"
  | .tupleT e => "tuple[" ++ get_python_type_name e ++ "]"
  | .dictT k v =>
      "dict[" ++ get_python_type_name k ++ ", " ++ get_python_type_name v ++ "]"
  | .unionT args =>
      "Union[" ++ String.intercalate ", " (pyTypeNames args) ++ "]"
  | .literalT vals =>
      -- `get_python_type_name(arg)` on a literal VALUE falls back to `str(arg)`
      "Literal[" ++ String.intercalate ", " (vals.map pyStr) ++ "]"
  | .annotated base _ => "Annotated[" ++ get_python_type_name base ++ "]"
  | t => get_python_type_name t

/-- `pydantic_ui.schema.get_python_type_name_for_union`. -/
def get_python_type_name_for_union (ts : List PyType) : String :=
  "Union[" ++ String.intercalate ", " (pyTypeNames ts) ++ "]"

/-- `pydantic_ui.schema.get_format_for_type`. -/
def get_format_for_type : PyType → Option String
  | .datetimeT => some "date-time"
  | .dateT => some "date"
  | .timeT => some "time"
  | _ => none

/-- `pydantic_ui.schema.get_enum_values`. -/
def get_enum_values : PyType → Option (List JVal)
  | .enumT _ vals => some vals
  | _ => none

/-- `hasattr(t, "__name__")` and the `__name__` itself, for the class
config lookup in `extract_field_config`.  Generic aliases such as
`list[X]` expose the origin's name; `typing` special forms
(`Union[...]`, `Literal[...]`) have no `__name__`. -/
def typeName : PyType → Option String
  | .noneT => some "NoneType"
  | .strT => some "str"
  | .intT => some "int"
  | .floatT => some "float"
  | .boolT => some "bool"
  | .datetimeT => some "datetime"
  | .dateT => some "date"
  | .timeT => some "time"
  | .enumT name _ => some name
  | .modelRef name => some name
  | .listT _ => some "list"
  | .setT _ => some "set"
  | .tupleT _ => some "tuple"
  | .dictT _ _ => some "dict"
  | .unionT _ => none
  | .literalT _ => none
  | .annotated _ _ => none

/-- The first `FieldConfig` among a list of metadata items
(`isinstance(meta, FieldConfig)` scan). -/
def findFieldConfig : List FieldMeta → Option FieldConfig
  | [] => none
  | .fieldConfig fc :: _ => some fc
  | _ :: rest => findFieldConfig rest

/-- `pydantic_ui.schema.extract_discriminator`, restricted to the string
discriminator shapes reachable in this embedding: the `discriminator`
attribute of the field, else the first metadata item carrying one.
The result models the `{"field": ..., "type": "string"}` dict. -/
def extract_discriminator (fi : FieldInfo) : Option String :=
  match fi.discriminator with
  | some d => some d
  | none =>
      let rec fromMeta : List FieldMeta → Option String
        | [] => none
        | .discM f :: _ => some f
        | _ :: rest => fromMeta rest
      fromMeta fi.metadata

/-- `pydantic_ui.schema.get_discriminator_values`. -/
def get_discriminator_values (env : Env) (variant_type : PyType)
    (discriminator_field : String) : List JVal :=
  match variant_type with
  | .modelRef name =>
      let mdef := env name
      match mdef.fields.lookup discriminator_field with
      | none => []
      | some fi =>
          match fi.ann with
          | none => []
          | some ft =>
              -- Handle Annotated types
              let ft1 := match ft with
                | .annotated base _ => base
                | other => other
              match ft1 with
              | .literalT vals => vals
              | _ =>
                  match fi.default with
                  | some d => [d]
                  | none => []
  | _ => []   -- not a class, or not a BaseModel subclass

/-- `pydantic_ui.schema.get_constraints`. -/
def get_constraints (fi : FieldInfo) (field_type : PyType) : JVal :=
  let cs := fi.metadata.foldl
    (fun (acc : List (String × JVal)) m =>
      match m with
      | .gtM v => setEntry acc "exclusiveMinimum" v
      | .geM v => setEntry acc "minimum" v
      | .ltM v => setEntry acc "exclusiveMaximum" v
      | .leM v => setEntry acc "maximum" v
      | .minLenM v => setEntry acc "minLength" v
      | .maxLenM v => setEntry acc "maxLength" v
      | .patternM v => setEntry acc "pattern" v
      | .multipleOfM v => setEntry acc "multipleOf" v
      | .fieldConfig _ => acc
      | .discM _ => acc)
    []
  let cs := match field_type with
    | .literalT vals => setEntry cs "enum" (.arr vals)
    | _ => cs
  .obj cs

/-- The explicit class-config/annotation merge block inside
`pydantic_ui.schema.extract_field_config`: start from a copy of the
class config, then apply every annotated-config property that is not at
its default sentinel.  Display configs are merged via
`_merge_display_configs` when both are present (which can raise). -/
def mergeFieldConfigs (config annotated_config : FieldConfig) :
    Except String FieldConfig :=
  let new0 : FieldConfig :=
    { renderer := config.renderer, display := config.display,
      placeholder := config.placeholder, hidden := config.hidden,
      read_only := config.read_only, visible_when := config.visible_when,
      options_from := config.options_from, props := config.props }
  let new1 := if annotated_config.renderer ≠ "auto" then
      { new0 with renderer := annotated_config.renderer } else new0
  match (match annotated_config.display with
         | some ad =>
             match new1.display with
             | some nd =>
                 match mergeDisplayConfigs nd ad with
                 | .error e => .error e
                 | .ok merged => .ok { new1 with display := some merged }
             | none => .ok { new1 with display := some ad }
         | none => .ok new1 : Except String FieldConfig) with
  | .error e => .error e
  | .ok new2 =>
      let new3 := match annotated_config.placeholder with
        | some p => { new2 with placeholder := some p }
        | none => new2
      let new4 := if annotated_config.hidden then
          { new3 with hidden := true } else new3
      let new5 := if annotated_config.read_only then
          { new4 with read_only := true } else new4
      let new6 := match annotated_config.visible_when with
        | some v => { new5 with visible_when := some v }
        | none => new5
      let new7 := match annotated_config.options_from with
        | some o => { new6 with options_from := some o }
        | none => new6
      let new8 := if !annotated_config.props.isEmpty then
          { new7 with
            props := annotated_config.props.foldl
              (fun acc (kv : String × JVal) => setEntry acc kv.1 kv.2)
              new7.props }
        else new7
      .ok new8

/-- `pydantic_ui.schema.extract_field_config`. -/
def extract_field_config (fi : FieldInfo) (field_type : PyType)
    (class_configs : List (String × FieldConfig)) :
    Except String (Option FieldConfig) :=
  -- Check class configs first (lower priority); `if class_configs:`
  let config : Option FieldConfig :=
    if !class_configs.isEmpty then
      let actual_type := match field_type with
        | .annotated base _ => base
        | other => other
      match typeName actual_type with
      | some n => class_configs.lookup n
      | none => none
    else none
  -- Check field_info metadata (higher priority)
  let annotated_config : Option FieldConfig := findFieldConfig fi.metadata
  -- Check Annotated args (for other generic types `get_args` yields
  -- types, never FieldConfig instances)
  let annotated_config : Option FieldConfig :=
    match annotated_config with
    | some fc => some fc
    | none =>
        match field_type with
        | .annotated _ metas => findFieldConfig metas
        | _ => none
  match annotated_config with
  | some ac =>
      match config with
      | some c =>
          match mergeFieldConfigs c ac with
          | .error e => .error e
          | .ok merged => .ok (some merged)
      | none => .ok (some ac)
  | none => .ok config

/-- Filtering a list never increases its `sizeOf`. -/
theorem sizeOf_filter_le (p : PyType → Bool) (l : List PyType) :
    sizeOf (l.filter p) ≤ sizeOf l := by
  induction l with
  | nil => simp
  | cons a rest ih =>
      simp only [List.filter]
      cases p a <;> simp_all <;> omega

/-- `field_info.title or name.replace("_", " ").title()`: `or` falls back
on an unset or empty title (Python truthiness). -/
def titleOf (fi : FieldInfo) (name : String) : String :=
  match fi.title with
  | some t => if t = "" then humanize name else t
  | none => humanize name

/-- The `description` entry: the field description, `None` if unset. -/
def descrOf (fi : FieldInfo) : JVal :=
  fi.description.elim JVal.null JVal.s

/-- Python `l[0]` on a list known to be non-empty (the fallback is
unreachable at every use site). -/
def headOr (l : List PyType) (fallback : PyType) : PyType :=
  match l with
  | [] => fallback
  | a :: _ => a

/-- The loop guard `if discriminator_info and discriminator_info.get("field")`
of `parse_union_field`: the discriminator field name when present and
truthy (non-empty). -/
def discFieldOf (fi : FieldInfo) : Option String :=
  match extract_discriminator fi with
  | some f => if f = "" then none else some f
  | none => none

mutual

/-- `pydantic_ui.schema.parse_field`. -/
def parse_field (env : Env) (name : String) (fi : FieldInfo)
    (field_type : PyType) (max_depth current_depth : Nat)
    (class_configs : List (String × FieldConfig)) : Except String JVal :=
  if h : current_depth ≥ max_depth then
    .ok (.obj [("type", .s "string"), ("title", .s name),
               ("description", .s "Max depth reached")])
  else
    match field_type with
    -- Handle Annotated types - unwrap to get the actual type
    | .annotated base _ =>
        parse_field env name fi base max_depth current_depth class_configs
    -- Handle Union types
    | .unionT args =>
        parse_union_field env name fi args max_depth current_depth class_configs
    -- Handle Literal types
    | .literalT vals =>
        let first_value := vals.headD (.s "")
        let json_type := match first_value with
          | .b _ => "boolean"
          | .i _ => "integer"
          | _ => "string"
        let python_type_str :=
          "Literal[" ++ String.intercalate ", " (vals.map pyRepr) ++ "]"
        match extract_field_config fi field_type class_configs with
        | .error e => .error e
        | .ok field_config =>
            .ok (.obj [("type", .s json_type),
                       ("python_type", .s python_type_str),
                       ("title", .s (titleOf fi name)),
                       ("description", descrOf fi),
                       ("required", .b (!is_optional_type fi.ann)),
                       ("default", fi.default.getD .null),
                       ("literal_values", .arr vals),
                       ("ui_config",
                        (field_config.map build_ui_config).getD .null)])
    -- Handle Enum types (including StrEnum)
    | .enumT ename evals =>
        -- enum-member defaults are modelled by their `.value`
        let default_value : JVal := fi.default.getD .null
        match extract_field_config fi field_type class_configs with
        | .error e => .error e
        | .ok field_config =>
            .ok (.obj [("type", .s (get_json_type field_type)),
                       ("python_type", .s ename),
                       ("title", .s (titleOf fi name)),
                       ("description", descrOf fi),
                       ("required", .b (!is_optional_type fi.ann)),
                       ("default", default_value),
                       ("enum", .arr evals),
                       ("ui_config",
                        (field_config.map build_ui_config).getD .null)])
    -- Handle List/Set/Tuple
    | .listT item_type | .setT item_type | .tupleT item_type =>
        match extract_field_config fi field_type class_configs with
        | .error e => .error e
        | .ok field_config =>
            match parse_field env "item" {} item_type max_depth
                (current_depth + 1) class_configs with
            | .error e => .error e
            | .ok items =>
                .ok (.obj [("type", .s "array"),
                           ("python_type", .s (get_python_type_name field_type)),
                           ("title", .s (titleOf fi name)),
                           ("description", descrOf fi),
                           ("required", .b true),
                           ("items", items),
                           ("ui_config",
                            (field_config.map build_ui_config).getD .null)])
    -- Handle Dict
    | .dictT _ value_type =>
        match extract_field_config fi field_type class_configs with
        | .error e => .error e
        | .ok field_config =>
            match parse_field env "value" {} value_type max_depth
                (current_depth + 1) class_configs with
            | .error e => .error e
            | .ok ap =>
                .ok (.obj [("type", .s "object"),
                           ("python_type", .s (get_python_type_name field_type)),
                           ("title", .s (titleOf fi name)),
                           ("description", descrOf fi),
                           ("required", .b true),
                           ("additionalProperties", ap),
                           ("ui_config",
                            (field_config.map build_ui_config).getD .null)])
    -- Handle nested Pydantic models
    | .modelRef mname =>
        match parse_model env (env mname) max_depth (current_depth + 1)
            class_configs with
        | .error e => .error e
        | .ok result =>
            let r1 := setKey "title" (.s (titleOf fi name)) result
            let r2 := setKey "required" (.b (!is_optional_type fi.ann)) r1
            let r3 := setKey "python_type" (.s mname) r2
            -- `if field_info.description:` (truthiness)
            let r4 := match fi.description with
              | some dsc =>
                  if dsc = "" then r3 else setKey "description" (.s dsc) r3
              | none => r3
            match extract_field_config fi field_type class_configs with
            | .error e => .error e
            | .ok (some fc) => .ok (setKey "ui_config" (build_ui_config fc) r4)
            | .ok none => .ok r4
    -- Primitive (and datetime) types
    | _ =>
        let format_hint := get_format_for_type field_type
        match extract_field_config fi field_type class_configs with
        | .error e => .error e
        | .ok field_config =>
            -- datetime defaults are modelled as ISO strings, so the
            -- `isoformat()` conversions are the identity here
            let default_value : JVal := match fi.default with
              | some d => d
              | none =>
                  match fi.default_factory with
                  | some (.ok v) => v
                  | some (.error _) => .null   -- factory raised: swallowed
                  | none => .null
            let base := JVal.obj
              [("type", .s (get_json_type field_type)),
               ("python_type", .s (get_python_type_name field_type)),
               ("title", .s (titleOf fi name)),
               ("description", descrOf fi),
               ("required", .b (!is_optional_type fi.ann)),
               ("default", default_value),
               ("constraints", get_constraints fi field_type),
               ("ui_config", (field_config.map build_ui_config).getD .null)]
            .ok (match format_hint with
                 | some f => setKey "format" (.s f) base
                 | none => base)
termination_by (max_depth - current_depth, 1, sizeOf field_type, 1)

/-- `pydantic_ui.schema.parse_union_field`. -/
def parse_union_field (env : Env) (name : String) (fi : FieldInfo)
    (union_args : List PyType) (max_depth current_depth : Nat)
    (class_configs : List (String × FieldConfig)) : Except String JVal :=
  let non_none := union_args.filter notNoneType
  let has_none := non_none.length < union_args.length
  -- Single type + None = Optional, handle normally (`non_none[0]`)
  if h1 : non_none.length = 1 then
    have hsz : sizeOf (headOr non_none PyType.noneT) < sizeOf union_args := by
      rcases List.length_eq_one.mp h1 with ⟨a, ha⟩
      have hmem : a ∈ union_args :=
        List.mem_of_mem_filter (ha.symm ▸ List.mem_singleton_self a)
      rw [ha]
      exact List.sizeOf_lt_of_mem hmem
    match parse_field env name fi (headOr non_none PyType.noneT) max_depth
        current_depth class_configs with
    | .error e => .error e
    | .ok single_result =>
        .ok (setKey "required" (.b (!has_none)) single_result)
  else
      -- `all_primitive` only feeds a fall-through branch in the source
      let _all_primitive := non_none.all (fun t => !is_pydantic_model t)
      let discriminator_info := extract_discriminator fi
      -- `if discriminator_info and discriminator_info.get("field")`
      let discField : Option String := discFieldOf fi
      have hle : sizeOf (union_args.filter notNoneType) ≤ sizeOf union_args :=
        sizeOf_filter_le notNoneType union_args
      match unionVariantsLoop env discField max_depth current_depth
          class_configs non_none 0 [] with
      | .error e => .error e
      | .ok vm =>
          let variants := vm.1
          let mapping := vm.2
          let result := JVal.obj
            [("type", .s "union"),
             ("python_type", .s (get_python_type_name_for_union non_none)),
             ("title", .s (titleOf fi name)),
             ("description", descrOf fi),
             ("required", .b (!has_none)),
             ("default", fi.default.getD .null),
             ("variants", .arr variants)]
          let result := match discriminator_info with
            | some f =>
                setKey "discriminator"
                  (.obj [("field", .s f), ("type", .s "string"),
                         ("mapping",
                          if mapping.isEmpty then .null
                          else .obj (mapping.map
                            (fun kv => (kv.1, JVal.i (kv.2 : Int)))))])
                  result
            | none => result
          match extract_field_config fi .noneT class_configs with
          | .error e => .error e
          | .ok (some fc) => .ok (setKey "ui_config" (build_ui_config fc) result)
          | .ok none => .ok (setKey "ui_config" .null result)
termination_by (max_depth - current_depth, 1, sizeOf union_args, 1)
decreasing_by
  · apply Prod.Lex.right
    apply Prod.Lex.right
    exact Prod.Lex.left _ _ hsz
  · apply Prod.Lex.right
    apply Prod.Lex.right
    rcases Nat.lt_or_ge (sizeOf (union_args.filter notNoneType))
        (sizeOf union_args) with hlt | hge
    · exact Prod.Lex.left _ _ hlt
    · have heq : sizeOf (union_args.filter notNoneType) = sizeOf union_args :=
        Nat.le_antisymm hle hge
      rw [heq]
      exact Prod.Lex.right _ (by omega)

/-- The `for i, variant_type in enumerate(non_none)` loop of
`parse_union_field`: builds the variant sub-schemas and accumulates the
discriminator value mapping. -/
def unionVariantsLoop (env : Env) (discField : Option String)
    (max_depth current_depth : Nat)
    (class_configs : List (String × FieldConfig))
    (vs : List PyType) (i : Nat) (mapping : List (String × Nat)) :
    Except String (List JVal × List (String × Nat)) :=
  match vs with
  | [] => .ok ([], mapping)
  | vt :: rest =>
      match parse_field env ("variant_" ++ toString i) {} vt max_depth
          (current_depth + 1) class_configs with
      | .error e => .error e
      | .ok v0 =>
          let v1 := setKey "variant_index" (.i (i : Int)) v0
          let v2 := setKey "variant_name" (.s (get_variant_name vt)) v1
          -- Override the auto-generated title with the actual type name
          let v3 := setKey "title" (.s (get_variant_name vt)) v2
          match discField with
          | some df =>
              let disc_values := get_discriminator_values env vt df
              let v4 := setKey "discriminator_values" (.arr disc_values) v3
              let mapping1 := disc_values.foldl
                (fun m v => insertNat m (pyStr v) i) mapping
              match unionVariantsLoop env discField max_depth current_depth
                  class_configs rest (i + 1) mapping1 with
              | .error e => .error e
              | .ok rm => .ok (v4 :: rm.1, rm.2)
          | none =>
              match unionVariantsLoop env discField max_depth current_depth
                  class_configs rest (i + 1) mapping with
              | .error e => .error e
              | .ok rm => .ok (v3 :: rm.1, rm.2)
termination_by (max_depth - current_depth, 1, sizeOf vs, 0)
decreasing_by
  · rcases Nat.lt_or_ge (max_depth - (current_depth + 1))
        (max_depth - current_depth) with hlt | hge
    · exact Prod.Lex.left _ _ hlt
    · have heq : max_depth - (current_depth + 1) = max_depth - current_depth :=
        by omega
      rw [heq]
      apply Prod.Lex.right
      apply Prod.Lex.right
      exact Prod.Lex.left _ _
        (by try simp only [List.cons.sizeOf_spec]; omega)
  · apply Prod.Lex.right
    apply Prod.Lex.right
    exact Prod.Lex.left _ _
      (by try simp only [List.cons.sizeOf_spec]; omega)
  · apply Prod.Lex.right
    apply Prod.Lex.right
    exact Prod.Lex.left _ _
      (by try simp only [List.cons.sizeOf_spec]; omega)

/-- `pydantic_ui.schema.parse_model`. -/
def parse_model (env : Env) (model : ModelDef)
    (max_depth current_depth : Nat)
    (class_configs : List (String × FieldConfig)) : Except String JVal :=
  if h : current_depth ≥ max_depth then
    .ok (.obj [("name", .s model.name), ("type", .s "object"),
               ("description", .s "Max depth reached"), ("fields", .obj [])])
  else
    match parseFields env max_depth current_depth class_configs model.fields with
    | .error e => .error e
    | .ok flds =>
        .ok (.obj [("name", .s model.name), ("type", .s "object"),
                   ("description", model.doc.elim JVal.null JVal.s),
                   ("fields", .obj flds)])
termination_by (max_depth - current_depth, 3, 0, 0)

/-- The field loop of `parse_model` (declaration order). -/
def parseFields (env : Env) (max_depth current_depth : Nat)
    (class_configs : List (String × FieldConfig))
    (flds : List (String × FieldInfo)) :
    Except String (List (String × JVal)) :=
  match flds with
  | [] => .ok []
  | (fname, fi) :: rest =>
      -- `field_type = field_info.annotation`, `str` when missing
      let ftype := fi.ann.getD .strT
      match parse_field env fname fi ftype max_depth current_depth
          class_configs with
      | .error e => .error e
      | .ok fs =>
          match parseFields env max_depth current_depth class_configs rest with
          | .error e => .error e
          | .ok rfs => .ok ((fname, fs) :: rfs)
termination_by (max_depth - current_depth, 2, sizeOf flds, 0)

end

/-! ## Document mutation engine (`pydantic_ui/handlers.py`) -/

/-- One entry of pydantic's `e.errors()`: a location tuple (components
already `str()`-ed), a message and an error-kind tag. -/
structure RawErr where
  loc : List String
  msg : String
  etype : String

/-- One entry of the handler's `errors` list: the dot-joined path, the
message and the kind tag (`"type"` in the source dicts). -/
structure FieldErr where
  path : String
  message : String
  etype : String

/-- The projection done in `update_data`/`partial_update`/`validate_data`:
`{"path": ".".join(str(loc) for loc in err["loc"]), "message": err["msg"],
"type": err["type"]}`. -/
def projectErr (e : RawErr) : FieldErr :=
  ⟨String.intercalate "." e.loc, e.msg, e.etype⟩

/-- The external validator: `model.model_validate(data)` composed with
`model_dump` — on success the validated/coerced document (the saver
receives the same validated instance), on failure the raised
`ValidationError`'s error list. -/
def Validator : Type := JVal → Except (List RawErr) JVal

/-- A configured `data_saver` collaborator: called with the validated
instance; `Except.error` models a raised exception (not caught by the
handler). -/
def Saver : Type := JVal → Except String Unit

/-- What a `data_loader` call produced: a `BaseModel`, a `dict`, any
other value, or a raised exception. -/
inductive LoaderResult where
  | model (d : JVal)
  | dict (d : JVal)
  | other
  | raised (e : String)

/-- The mutable state of a `DataHandler`: its `_data` document. -/
structure HandlerState where
  data : JVal

/-- The response dict of `update_data`/`partial_update`:
`{"data": ..., "valid": ...}` plus `"errors"` on failure (the key is
absent on success, hence the `Option`). -/
structure UpdateResp where
  data : JVal
  valid : Bool
  errors : Option (List FieldErr)

/-- Result of one handler call: the state after the call, the response
(or the exception that escaped), and — as observational instrumentation,
not part of the source — the list of arguments the `data_saver` was
invoked with during the call. -/
structure StepOut where
  state : HandlerState
  result : Except String UpdateResp
  saverArgs : List JVal

/-- `DataHandler.get_data`: a raising loader is swallowed
(`except Exception: pass`) and the last-known in-memory document is
returned; a loaded `BaseModel`/`dict` replaces `_data` first. -/
def get_data (loader : Option LoaderResult) (st : HandlerState) :
    HandlerState × JVal :=
  match loader with
  | none => (st, .obj [("data", st.data)])
  | some (.model d) => (⟨d⟩, .obj [("data", d)])
  | some (.dict d) => (⟨d⟩, .obj [("data", d)])
  | some .other => (st, .obj [("data", st.data)])
  | some (.raised _) => (st, .obj [("data", st.data)])

/-- `DataHandler.update_data`: validate the whole document; on success
replace `_data` with the validated form and invoke the saver (whose
exception propagates); on `ValidationError` leave `_data` untouched and
return the caller-supplied document with the projected field errors. -/
def update_data (validate : Validator) (saver : Option Saver)
    (st : HandlerState) (data : JVal) : StepOut :=
  match validate data with
  | .ok instDoc =>
      let st1 : HandlerState := ⟨instDoc⟩
      match saver with
      | none => ⟨st1, .ok ⟨instDoc, true, none⟩, []⟩
      | some f =>
          match f instDoc with
          | .ok _ => ⟨st1, .ok ⟨instDoc, true, none⟩, [instDoc]⟩
          | .error e => ⟨st1, .error e, [instDoc]⟩
  | .error errs =>
      ⟨st, .ok ⟨data, false, some (errs.map projectErr)⟩, []⟩

/-- `DataHandler.partial_update`: patch the current document at `path`
via `set_value_at_path` (an opaque parameter here: the function lives in
the repository's `pydantic_ui/utils.py`, which is not among the given
sources), validate the entire result; on success store the validated
form, on failure store the unvalidated patched form and return it with
the projected errors. -/
def partial_update (validate : Validator) (saver : Option Saver)
    (set_value_at_path : JVal → String → JVal → JVal)
    (st : HandlerState) (path : String) (value : JVal) : StepOut :=
  let new_data := set_value_at_path st.data path value
  match validate new_data with
  | .ok instDoc =>
      let st1 : HandlerState := ⟨instDoc⟩
      match saver with
      | none => ⟨st1, .ok ⟨instDoc, true, none⟩, []⟩
      | some f =>
          match f instDoc with
          | .ok _ => ⟨st1, .ok ⟨instDoc, true, none⟩, [instDoc]⟩
          | .error e => ⟨st1, .error e, [instDoc]⟩
  | .error errs =>
      -- Still update the data but return errors
      ⟨⟨new_data⟩, .ok ⟨new_data, false, some (errs.map projectErr)⟩, []⟩

/-- The per-field merge step of `DataHandler._apply_field_configs`: the
path-keyed `FieldConfig` is written into the schema's `ui_config` dict.
`FieldConfig` has no `label`/`help_text` attribute, so those two
`hasattr` branches never fire; `renderer`, `hidden` and `read_only` are
written unconditionally; `placeholder` and `props` only when truthy. -/
def applyPathConfig (config : FieldConfig) (fschema : JVal) : JVal :=
  -- `if field_schema.get("ui_config") is None: field_schema["ui_config"] = {}`
  let ui0 : List (String × JVal) := match getKey "ui_config" fschema with
    | some (.obj kvs) => kvs
    | _ => []
  let ui1 := setEntry ui0 "renderer" (.s config.renderer)
  let ui2 := match config.placeholder with
    | some p => if p = "" then ui1 else setEntry ui1 "placeholder" (.s p)
    | none => ui1
  let ui3 := setEntry ui2 "hidden" (.b config.hidden)
  let ui4 := setEntry ui3 "read_only" (.b config.read_only)
  let ui5 := if config.props.isEmpty then ui4
             else setEntry ui4 "props" (.obj config.props)
  setKey "ui_config" (.obj ui5) fschema

mutual

/-- `DataHandler._apply_field_configs`, iterating the `fields` dict. -/
def applyFieldConfigs (cfgs : List (String × FieldConfig)) (pref : String) :
    List (String × JVal) → List (String × JVal)
  | [] => []
  | (fname, fschema) :: rest =>
      (fname, applyOneField cfgs pref fname fschema)
        :: applyFieldConfigs cfgs pref rest

/-- One iteration of `_apply_field_configs`: merge the path-keyed config
(if any) into the field's `ui_config`, and recurse into its `fields`.
The source merges before recursing; the two steps touch the disjoint
keys `ui_config` and `fields`, so they are composed here with the
recursion written first (structurally on the original value). -/
def applyOneField (cfgs : List (String × FieldConfig))
    (pref fname : String) : JVal → JVal
  | .obj kvs =>
      let full_path := if pref = "" then fname else pref ++ fname
      let walked := JVal.obj (walkEntries cfgs full_path kvs)
      match cfgs.lookup full_path with
      | some config => applyPathConfig config walked
      | none => walked
  | other => other

/-- Rewrites the `fields` entry of a field schema with the recursive
application (all other entries pass through unchanged). -/
def walkEntries (cfgs : List (String × FieldConfig)) (full_path : String) :
    List (String × JVal) → List (String × JVal)
  | [] => []
  | (k, v) :: rest =>
      (k, if k = "fields" then recurseFieldsVal cfgs full_path v else v)
        :: walkEntries cfgs full_path rest

/-- `if field_schema.get("fields"): self._apply_field_configs(...)`:
recursion happens only when the nested `fields` dict is truthy. -/
def recurseFieldsVal (cfgs : List (String × FieldConfig))
    (full_path : String) : JVal → JVal
  | .obj fs =>
      if fs.isEmpty then .obj fs
      else .obj (applyFieldConfigs cfgs (full_path ++ ".") fs)
  | other => other

end

/-- `DataHandler.get_schema`: parse the model (the source passes no
`class_configs` here), then apply the path-keyed `field_configs` to the
schema's `fields`. -/
def get_schema (env : Env) (model : ModelDef)
    (field_configs : List (String × FieldConfig)) : Except String JVal :=
  match parse_model env model 10 0 [] with
  | .error e => .error e
  | .ok schema =>
      match getKey "fields" schema with
      | some (.obj fs) =>
          .ok (setKey "fields" (.obj (applyFieldConfigs field_configs "" fs))
                 schema)
      | _ => .ok schema

/-! ## Controller (`pydantic_ui/controller.py`) -/

/-- The pending-confirmation map of a `PydanticUIController`: id to
future state (`none` = unresolved future, `some b` = `set_result(b)`). -/
def PendingMap : Type := List (String × Option Bool)

/-- Insert/overwrite an entry of the pending map (dict assignment). -/
def PendingMap.store (m : PendingMap) (k : String) (v : Option Bool) :
    PendingMap :=
  match m with
  | [] => [(k, v)]
  | (k0, v0) :: rest =>
      if k0 = k then (k0, v) :: rest else (k0, v0) :: PendingMap.store rest k v

/-- `self._pending_confirmations.pop(id, None)`. -/
def PendingMap.popKey (m : PendingMap) (k : String) : PendingMap :=
  match m with
  | [] => []
  | (k0, v0) :: rest =>
      if k0 = k then rest else (k0, v0) :: PendingMap.popKey rest k

/-- `PydanticUIController.resolve_confirmation`: set the future's result
if the id has a pending, not-yet-done future; otherwise do nothing. -/
def resolve_confirmation (pending : PendingMap) (confirmation_id : String)
    (confirmed : Bool) : PendingMap :=
  match pending.lookup confirmation_id with
  | some none => pending.store confirmation_id (some confirmed)
  | _ => pending

/-- What happens while `request_confirmation` awaits its future:
either `resolve_confirmation(id, b)` is called before the 5-minute
timeout, or the timeout elapses unresolved, or the surrounding task is
cancelled. -/
inductive WaitOutcome where
  | resolvedWith (b : Bool)
  | timedOut
  | cancelled

/-- `PydanticUIController.request_confirmation` (the suspension
collapsed to a `WaitOutcome` oracle): register an unresolved future
under the id, push the `confirmation_request` event (to the external
event queue, not part of this state), await with `asyncio.wait_for`
(timeout 300 s: result on resolution, `False` on `TimeoutError`,
propagation on cancellation), and in all cases pop the pending entry in
the `finally` block.  Returns the result (`Except.error` = the
propagating `CancelledError`) and the pending map after the call. -/
def request_confirmation (pending : PendingMap) (confirmation_id : String)
    (outcome : WaitOutcome) : Except Unit Bool × PendingMap :=
  let p1 := pending.store confirmation_id none
  let p2 := match outcome with
    | .resolvedWith b => resolve_confirmation p1 confirmation_id b
    | _ => p1
  let result : Except Unit Bool := match outcome with
    | .cancelled => .error ()
    | _ =>
        match p2.lookup confirmation_id with
        | some (some b) => .ok b   -- the awaited future completed
        | _ => .ok false           -- asyncio.TimeoutError -> False
  (result, p2.popKey confirmation_id)

/-- The confirmation timeout passed to `asyncio.wait_for` (seconds). -/
def confirmation_timeout_seconds : Nat := 300

/-! ## Session event log

`pydantic_ui/sessions.py` is not among the given sources (only its unit
tests are), so the event log is modelled from the spec. -/

/-- An event appended to a session's log: `{type, payload, timestamp}`. -/
structure SessionEvent where
  etype : String
  payload : JVal
  timestamp : Nat

/-- Modelled from the spec: the `Session` of the missing
`pydantic_ui/sessions.py`, restricted to its bounded ordered event log
(capacity 100, oldest dropped first, like a `deque(maxlen=100)`). -/
structure Session where
  id : String
  events : List SessionEvent := []

/-- The event-log capacity (spec: "capacity 100, drop-oldest"). -/
def eventLogCapacity : Nat := 100

/-- Modelled from the spec: `Session.push_event` appends
`{type, payload, timestamp}` to the bounded log, dropping the oldest
entries beyond the capacity. -/
def push_event (s : Session) (e : SessionEvent) : Session :=
  let evs := s.events ++ [e]
  { s with events := evs.drop (evs.length - eventLogCapacity) }

/-- Pushing a list of events in order. -/
def pushMany (s : Session) (es : List SessionEvent) : Session :=
  es.foldl push_event s

/-! ## Theorems -/

/-- C1: whole-document `update_data` on a document that fails validation
leaves the stored document untouched and returns the original
caller-supplied document together with the projected
(path, message, kind) field errors; `partial_update` on a patch whose
resulting document fails validation replaces the stored document with
the unvalidated patched document and returns that patched document
together with the field errors. -/
theorem C1_failure_paths :
    (∀ (validate : Validator) (saver : Option Saver) (st : HandlerState)
        (x : JVal) (errs : List RawErr),
        validate x = .error errs →
        update_data validate saver st x =
          ⟨st, .ok ⟨x, false, some (errs.map projectErr)⟩, []⟩)
    ∧
    (∀ (validate : Validator) (saver : Option Saver)
        (set_value_at_path : JVal → String → JVal → JVal)
        (st : HandlerState) (path : String) (value : JVal)
        (errs : List RawErr),
        validate (set_value_at_path st.data path value) = .error errs →
        partial_update validate saver set_value_at_path st path value =
          ⟨⟨set_value_at_path st.data path value⟩,
           .ok ⟨set_value_at_path st.data path value, false,
                some (errs.map projectErr)⟩, []⟩) := by
  constructor
  · intro validate saver st x errs h
    simp [update_data, h]
  · intro validate saver setv st path value errs h
    simp [partial_update, h]

/-- Witness for C1 at a concrete validator, document and patch. -/
theorem C1_failure_paths_witness :
    ((fun _ => Except.error [(⟨["value"], "msg", "int_parsing"⟩ : RawErr)] :
       Validator) (.obj [("value", .s "bad")])
        = .error [⟨["value"], "msg", "int_parsing"⟩])
    ∧ update_data
        (fun _ => .error [(⟨["value"], "msg", "int_parsing"⟩ : RawErr)])
        none ⟨.obj [("name", .s "Original"), ("value", .i 10)]⟩
        (.obj [("value", .s "bad")]) =
      ⟨⟨.obj [("name", .s "Original"), ("value", .i 10)]⟩,
       .ok ⟨.obj [("value", .s "bad")], false,
            some [⟨"value", "msg", "int_parsing"⟩]⟩, []⟩
    ∧ partial_update
        (fun _ => .error [(⟨["value"], "msg", "int_parsing"⟩ : RawErr)])
        none (fun d p v => setKey p v d)
        ⟨.obj [("name", .s "Original"), ("value", .i 10)]⟩ "value"
        (.s "bad") =
      ⟨⟨setKey "value" (.s "bad")
          (.obj [("name", .s "Original"), ("value", .i 10)])⟩,
       .ok ⟨setKey "value" (.s "bad")
              (.obj [("name", .s "Original"), ("value", .i 10)]), false,
            some [⟨"value", "msg", "int_parsing"⟩]⟩, []⟩ := by
  refine ⟨rfl, ?_, ?_⟩
  · have h := C1_failure_paths.1
      (fun _ => .error [(⟨["value"], "msg", "int_parsing"⟩ : RawErr)])
      none ⟨.obj [("name", .s "Original"), ("value", .i 10)]⟩
      (.obj [("value", .s "bad")]) _ rfl
    simpa [projectErr] using h
  · have h := C1_failure_paths.2
      (fun _ => .error [(⟨["value"], "msg", "int_parsing"⟩ : RawErr)])
      none (fun d p v => setKey p v d)
      ⟨.obj [("name", .s "Original"), ("value", .i 10)]⟩ "value"
      (.s "bad") _ rfl
    simpa [projectErr] using h

/-- C8: an exception raised by the data loader during `get_data` is
swallowed and the read returns the last-known in-memory document with
the state unchanged; an exception raised by the data saver during
`update_data`, after validation succeeded, propagates to the caller. -/
theorem C8_loader_saver_asymmetry :
    (∀ (st : HandlerState) (e : String),
        get_data (some (.raised e)) st = (st, .obj [("data", st.data)]))
    ∧
    (∀ (validate : Validator) (f : Saver) (st : HandlerState)
        (x instDoc : JVal) (e : String),
        validate x = .ok instDoc → f instDoc = .error e →
        (update_data validate (some f) st x).result = .error e) := by
  constructor
  · intro st e
    rfl
  · intro validate f st x instDoc e hv hf
    simp [update_data, hv, hf]

/-- Witness for C8 at a concrete loader, validator and saver. -/
theorem C8_loader_saver_asymmetry_witness :
    (get_data (some (.raised "boom")) ⟨.obj [("a", .i 1)]⟩
        = (⟨.obj [("a", .i 1)]⟩, .obj [("data", .obj [("a", .i 1)])]))
    ∧ ((fun d => Except.ok d : Validator) (.obj [("a", .i 2)])
        = .ok (.obj [("a", .i 2)]))
    ∧ ((fun _ => Except.error "disk full" : Saver) (.obj [("a", .i 2)])
        = .error "disk full")
    ∧ (update_data (fun d => .ok d) (some (fun _ => .error "disk full"))
         ⟨.obj [("a", .i 1)]⟩ (.obj [("a", .i 2)])).result
        = .error "disk full" :=
  ⟨C8_loader_saver_asymmetry.1 _ "boom", rfl, rfl,
   C8_loader_saver_asymmetry.2 _ _ _ _ _ _ rfl rfl⟩

/-- C10: the data saver is invoked only on the validation-success path:
when `update_data` fails validation and when `partial_update` fails
validation the saver is never called (the call trace is empty), even
though `partial_update` still replaces the stored document with the
unvalidated patched form. -/
theorem C10_saver_frame :
    (∀ (validate : Validator) (saver : Option Saver) (st : HandlerState)
        (x : JVal) (errs : List RawErr),
        validate x = .error errs →
        (update_data validate saver st x).saverArgs = [])
    ∧
    (∀ (validate : Validator) (saver : Option Saver)
        (set_value_at_path : JVal → String → JVal → JVal)
        (st : HandlerState) (path : String) (value : JVal)
        (errs : List RawErr),
        validate (set_value_at_path st.data path value) = .error errs →
        (partial_update validate saver set_value_at_path st path
            value).saverArgs = []
          ∧ (partial_update validate saver set_value_at_path st path
              value).state = ⟨set_value_at_path st.data path value⟩) := by
  constructor
  · intro validate saver st x errs h
    simp [update_data, h]
  · intro validate saver setv st path value errs h
    simp [partial_update, h]

/-- Witness for C10 at a concrete always-rejecting validator with a
saver configured. -/
theorem C10_saver_frame_witness :
    ((fun _ => Except.error [(⟨["v"], "m", "k"⟩ : RawErr)] : Validator)
        (.obj []) = .error [⟨["v"], "m", "k"⟩])
    ∧ (update_data (fun _ => .error [(⟨["v"], "m", "k"⟩ : RawErr)])
         (some (fun _ => .ok ())) ⟨.obj [("a", .i 1)]⟩
         (.obj [])).saverArgs = []
    ∧ (partial_update (fun _ => .error [(⟨["v"], "m", "k"⟩ : RawErr)])
         (some (fun _ => .ok ())) (fun d p v => setKey p v d)
         ⟨.obj [("a", .i 1)]⟩ "a" (.s "x")).saverArgs = []
    ∧ (partial_update (fun _ => .error [(⟨["v"], "m", "k"⟩ : RawErr)])
         (some (fun _ => .ok ())) (fun d p v => setKey p v d)
         ⟨.obj [("a", .i 1)]⟩ "a" (.s "x")).state =
       ⟨setKey "a" (.s "x") (.obj [("a", .i 1)])⟩ :=
  ⟨rfl,
   C10_saver_frame.1 _ _ _ _ _ rfl,
   (C10_saver_frame.2 _ _ _ _ _ _ _ rfl).1,
   (C10_saver_frame.2 _ _ _ _ _ _ _ rfl).2⟩

/-- Looking up a key right after storing it yields the stored value. -/
theorem lookup_store (m : PendingMap) (k : String) (v : Option Bool) :
    (m.store k v).lookup k = some v := by
  induction m with
  | nil => simp [PendingMap.store, List.lookup]
  | cons kv rest ih =>
      obtain ⟨k0, v0⟩ := kv
      by_cases h : k0 = k
      · subst h
        simp [PendingMap.store, List.lookup]
      · have hbe : (k == k0) = false := by
          simp only [beq_eq_false_iff_ne]
          exact fun hh => h hh.symm
        simp [PendingMap.store, h, List.lookup, hbe, ih]

/-- A key absent from the key list looks up to nothing. -/
theorem lookup_of_not_mem_keys (m : PendingMap) (k : String)
    (h : k ∉ m.map Prod.fst) : m.lookup k = none := by
  induction m with
  | nil => simp [List.lookup]
  | cons kv rest ih =>
      obtain ⟨k0, v0⟩ := kv
      simp only [List.map_cons, List.mem_cons, not_or] at h
      have hbe : (k == k0) = false := by
        simp only [beq_eq_false_iff_ne]
        exact h.1
      simp only [List.lookup, hbe]
      exact ih h.2

/-- Membership in the keys of `store`. -/
theorem mem_keys_store (m : PendingMap) (k : String) (v : Option Bool)
    (a : String) :
    a ∈ (m.store k v).map Prod.fst ↔ a ∈ m.map Prod.fst ∨ a = k := by
  induction m with
  | nil => simp [PendingMap.store]
  | cons kv rest ih =>
      obtain ⟨k0, v0⟩ := kv
      by_cases h : k0 = k
      · subst h
        simp [PendingMap.store]
        tauto
      · simp only [PendingMap.store, if_neg h, List.map_cons,
          List.mem_cons, ih]
        tauto

/-- `store` preserves key uniqueness. -/
theorem store_nodup (m : PendingMap) (k : String) (v : Option Bool)
    (h : (m.map Prod.fst).Nodup) : ((m.store k v).map Prod.fst).Nodup := by
  induction m with
  | nil => simp [PendingMap.store]
  | cons kv rest ih =>
      obtain ⟨k0, v0⟩ := kv
      simp only [List.map_cons, List.nodup_cons] at h
      by_cases hk : k0 = k
      · subst hk
        simp only [PendingMap.store, if_pos, List.map_cons,
          List.nodup_cons, eq_self_iff_true, if_true]
        exact ⟨h.1, h.2⟩
      · simp only [PendingMap.store, if_neg hk, List.map_cons,
          List.nodup_cons]
        refine ⟨?_, ih h.2⟩
        rw [mem_keys_store]
        rintro (hmem | rfl)
        · exact h.1 hmem
        · exact hk rfl

/-- After popping a key from a map with unique keys, the key is gone. -/
theorem lookup_popKey (m : PendingMap) (k : String)
    (h : (m.map Prod.fst).Nodup) : (m.popKey k).lookup k = none := by
  induction m with
  | nil => simp [PendingMap.popKey, List.lookup]
  | cons kv rest ih =>
      obtain ⟨k0, v0⟩ := kv
      simp only [List.map_cons, List.nodup_cons] at h
      by_cases hk : k0 = k
      · subst hk
        simp only [PendingMap.popKey, if_pos, eq_self_iff_true, if_true]
        exact lookup_of_not_mem_keys rest k0 h.1
      · have hbe : (k == k0) = false := by
          simp only [beq_eq_false_iff_ne]
          exact fun hh => hk hh.symm
        simp only [PendingMap.popKey, if_neg hk, List.lookup, hbe]
        exact ih h.2

/-- `resolve_confirmation` preserves key uniqueness. -/
theorem resolve_nodup (m : PendingMap) (cid : String) (b : Bool)
    (h : (m.map Prod.fst).Nodup) :
    ((resolve_confirmation m cid b).map Prod.fst).Nodup := by
  unfold resolve_confirmation
  cases m.lookup cid with
  | none => exact h
  | some v =>
      cases v with
      | none => exact store_nodup m cid (some b) h
      | some _ => exact h

/-- C6: `request_confirmation` returns the boolean of a matching
`resolve_confirmation` that arrives before the timeout, returns `False`
when the timeout elapses unresolved, and on every exit path (resolved,
cancelled, or timed out) the pending-confirmation entry for the id is
removed from the pending map. -/
theorem C6_confirmation_roundtrip :
    ∀ (pending : PendingMap) (cid : String),
      (pending.map Prod.fst).Nodup →
      (∀ b, (request_confirmation pending cid (.resolvedWith b)).1 = .ok b)
      ∧ (request_confirmation pending cid .timedOut).1 = .ok false
      ∧ (∀ o : WaitOutcome,
          ((request_confirmation pending cid o).2).lookup cid = none) := by
  intro pending cid hnd
  have hstore := lookup_store pending cid none
  refine ⟨?_, ?_, ?_⟩
  · intro b
    unfold request_confirmation
    simp only [resolve_confirmation, hstore, lookup_store]
  · unfold request_confirmation
    simp only [hstore]
  · intro o
    unfold request_confirmation
    have hn1 : (((pending.store cid none)).map Prod.fst).Nodup :=
      store_nodup pending cid none hnd
    cases o with
    | resolvedWith b =>
        exact lookup_popKey _ cid (resolve_nodup _ cid b hn1)
    | timedOut => exact lookup_popKey _ cid hn1
    | cancelled => exact lookup_popKey _ cid hn1

/-- Witness for C6: a concrete pending map and id, all three outcomes. -/
theorem C6_confirmation_roundtrip_witness :
    ((([("other", (none : Option Bool))] : PendingMap).map Prod.fst).Nodup)
    ∧ (request_confirmation [("other", none)] "abc"
        (.resolvedWith true)).1 = .ok true
    ∧ (request_confirmation [("other", none)] "abc" .timedOut).1 = .ok false
    ∧ (request_confirmation [("other", none)] "abc"
        .cancelled).2.lookup "abc" = none := by
  have h := C6_confirmation_roundtrip [("other", none)] "abc" (by simp)
  exact ⟨by simp, h.1 true, h.2.1, h.2.2 .cancelled⟩

/-- The drop-oldest step commutes with keeping only the last
`eventLogCapacity` entries. -/
theorem lastCap_append_one (l : List SessionEvent) (e : SessionEvent) :
    ((l.drop (l.length - eventLogCapacity)) ++ [e]).drop
        (((l.drop (l.length - eventLogCapacity)) ++ [e]).length
          - eventLogCapacity)
      = (l ++ [e]).drop ((l ++ [e]).length - eventLogCapacity) := by
  by_cases h : l.length ≤ eventLogCapacity
  · have h0 : l.length - eventLogCapacity = 0 := by omega
    rw [h0, List.drop_zero]
  · have hcap : (1 : Nat) ≤ eventLogCapacity := by decide
    have hlen : (l.drop (l.length - eventLogCapacity)).length
        = eventLogCapacity := by
      rw [List.length_drop]; omega
    have h1 : ((l.drop (l.length - eventLogCapacity)) ++ [e]).length
        - eventLogCapacity = 1 := by
      simp only [List.length_append, List.length_singleton, hlen]
      omega
    have h2 : (l ++ [e]).length - eventLogCapacity
        = (l.length - eventLogCapacity) + 1 := by
      simp only [List.length_append, List.length_singleton]
      omega
    have e1 : ((l.drop (l.length - eventLogCapacity)) ++ [e]).drop
        (((l.drop (l.length - eventLogCapacity)) ++ [e]).length
          - eventLogCapacity)
        = ((l.drop (l.length - eventLogCapacity)).drop 1) ++ [e] := by
      rw [h1]
      exact @List.drop_append_of_le_length _
        (l.drop (l.length - eventLogCapacity)) [e] 1
        (by rw [hlen]; decide)
    have e2 : (l ++ [e]).drop ((l ++ [e]).length - eventLogCapacity)
        = (l.drop ((l.length - eventLogCapacity) + 1)) ++ [e] := by
      rw [h2]
      exact @List.drop_append_of_le_length _ l [e]
        ((l.length - eventLogCapacity) + 1) (by omega)
    rw [e1, e2, List.drop_drop]

/-- Folding `push_event` keeps exactly the last `eventLogCapacity`
events of everything ever pushed. -/
theorem pushMany_lastCap (sid : String) (es l : List SessionEvent) :
    (pushMany ⟨sid, l.drop (l.length - eventLogCapacity)⟩ es).events
      = (l ++ es).drop ((l ++ es).length - eventLogCapacity) := by
  induction es generalizing l with
  | nil => simp [pushMany]
  | cons e es ih =>
      have hpush : push_event ⟨sid, l.drop (l.length - eventLogCapacity)⟩ e
          = ⟨sid, (l ++ [e]).drop ((l ++ [e]).length - eventLogCapacity)⟩ := by
        simp only [push_event]
        rw [lastCap_append_one]
      calc (pushMany ⟨sid, l.drop (l.length - eventLogCapacity)⟩
              (e :: es)).events
          = (pushMany (push_event
              ⟨sid, l.drop (l.length - eventLogCapacity)⟩ e) es).events := by
            simp [pushMany]
        _ = (pushMany ⟨sid, (l ++ [e]).drop
              ((l ++ [e]).length - eventLogCapacity)⟩ es).events := by
            rw [hpush]
        _ = ((l ++ [e]) ++ es).drop
              (((l ++ [e]) ++ es).length - eventLogCapacity) := ih (l ++ [e])
        _ = (l ++ e :: es).drop
              ((l ++ e :: es).length - eventLogCapacity) := by
            simp

set_option maxRecDepth 8000 in
/-- C9: `push_event` keeps the log bounded at capacity 100 with
drop-oldest eviction: pushing `k` events onto an empty session retains
exactly `min k 100` events, the most recent ones in push order; after
150 pushes exactly 100 remain and the first retained is the 51st pushed
(index 50). -/
theorem C9_event_log_bound :
    (∀ (sid : String) (es : List SessionEvent),
        (pushMany ⟨sid, []⟩ es).events
            = es.drop (es.length - eventLogCapacity)
          ∧ (pushMany ⟨sid, []⟩ es).events.length
            = min es.length eventLogCapacity)
    ∧ ((pushMany ⟨"s", []⟩ ((List.range 150).map (fun idx =>
          ⟨"event" ++ toString idx, .obj [], idx⟩))).events.head?.map
        SessionEvent.etype = some "event50")
    ∧ (pushMany ⟨"s", []⟩ ((List.range 150).map (fun idx =>
          ⟨"event" ++ toString idx, .obj [], idx⟩))).events.length = 100 := by
  have hgen : ∀ (sid : String) (es : List SessionEvent),
      (pushMany ⟨sid, []⟩ es).events
        = es.drop (es.length - eventLogCapacity) := by
    intro sid es
    have h := pushMany_lastCap sid es []
    simpa using h
  refine ⟨fun sid es => ⟨hgen sid es, ?_⟩, ?_, ?_⟩
  · rw [hgen, List.length_drop]
    simp only [eventLogCapacity]
    omega
  · rw [hgen]
    rfl
  · rw [hgen, List.length_drop]
    rfl

/-- Looking up a key in `setEntry`: the written key yields the new
value, any other key is unaffected. -/
theorem lookup_setEntry (kvs : List (String × JVal)) (k k' : String)
    (v : JVal) :
    (setEntry kvs k' v).lookup k
      = if k = k' then some v else kvs.lookup k := by
  induction kvs with
  | nil =>
      by_cases h : k = k'
      · simp [setEntry, List.lookup, h]
      · have hbe : (k == k') = false := by
          simp only [beq_eq_false_iff_ne]; exact h
        simp [setEntry, List.lookup, h, hbe]
  | cons kv rest ih =>
      obtain ⟨k0, v0⟩ := kv
      by_cases h0 : k0 = k'
      · subst h0
        by_cases h : k = k0
        · simp [setEntry, List.lookup, h]
        · have hbe : (k == k0) = false := by
            simp only [beq_eq_false_iff_ne]; exact h
          simp [setEntry, List.lookup, h, hbe]
      · by_cases h : k = k0
        · subst h
          simp [setEntry, h0, List.lookup]
        · have hbe : (k == k0) = false := by
            simp only [beq_eq_false_iff_ne]; exact h
          simp [setEntry, h0, List.lookup, hbe, ih]

/-- Concrete field for the C2 configuration-precedence scenario: an
`int` field whose annotation attaches `FieldConfig(renderer="slider")`
(pydantic places the `Annotated` metadata in `FieldInfo.metadata`). -/
def fiC2 : FieldInfo :=
  { ann := some .intT, metadata := [.fieldConfig { renderer := "slider" }] }

/-- Concrete single-field model for the C2 scenario. -/
def mC2 : ModelDef := ⟨"M", none, [("age", fiC2)]⟩

/-- Environment for the C2 scenario (no nested records needed). -/
def envC2 : Env := fun _ => mC2

/-- The effective renderer of the `age` field in a `get_schema` result. -/
def rendererOfAge (r : Except String JVal) : Option JVal :=
  match r with
  | .ok schema =>
      ((getKey "fields" schema).bind (getKey "age")).bind
        (fun f => (getKey "ui_config" f).bind (getKey "renderer"))
  | .error _ => none

/-- C2 counterexample: with the annotation-attached config explicitly
setting `renderer="slider"` and the path-keyed override setting
`renderer="select"`, the effective renderer produced by `get_schema` is
the path-keyed `"select"`, not the annotation's `"slider"` — so the
annotation-attached config does not win over the path-keyed override,
refuting the claimed precedence. -/
theorem C2_counterexample :
    rendererOfAge (get_schema envC2 mC2 [("age", { renderer := "select" })])
      = some (.s "select")
    ∧ rendererOfAge (get_schema envC2 mC2
        [("age", { renderer := "select" })]) ≠ some (.s "slider") := by
  have h : rendererOfAge
      (get_schema envC2 mC2 [("age", { renderer := "select" })])
      = some (.s "select") := by
    simp [rendererOfAge, get_schema, parse_model, parseFields, parse_field,
      extract_field_config, findFieldConfig, build_ui_config, getKey, setKey,
      setEntry, titleOf, humanize, pyTitle, descrOf, get_json_type,
      get_python_type_name, get_constraints, is_optional_type,
      applyFieldConfigs, applyOneField, walkEntries, recurseFieldsVal,
      applyPathConfig, List.lookup, mC2, envC2, fiC2, get_format_for_type]
  refine ⟨h, ?_⟩
  rw [h]
  simp

/-- C2 (amended): annotation-attached config overrides record-type-keyed
default config property-wise (an explicitly set annotation renderer
wins over the class default, an unset one inherits it), but the
path-keyed override config is applied after schema construction and its
properties win over the annotation-attached config for the same field —
in particular the effective renderer after the path-config merge step is
always the path-keyed config's renderer.  Effective precedence is
path-keyed > annotation-attached > record-type-keyed. -/
theorem C2_amended_precedence :
    (∀ (c ac fc : FieldConfig),
        ac.renderer ≠ "auto" → mergeFieldConfigs c ac = .ok fc →
        fc.renderer = ac.renderer)
    ∧ (∀ (c ac fc : FieldConfig),
        ac.renderer = "auto" → mergeFieldConfigs c ac = .ok fc →
        fc.renderer = c.renderer)
    ∧ (∀ (config : FieldConfig) (kvs : List (String × JVal)),
        ((getKey "ui_config" (applyPathConfig config (.obj kvs))).bind
            (getKey "renderer"))
          = some (.s config.renderer)) := by
  refine ⟨?_, ?_, ?_⟩
  · intro c ac fc hne hok
    simp only [mergeFieldConfigs, if_pos hne] at hok
    split at hok
    · exact absurd hok (by simp)
    · rename_i new2 heq
      injection hok with hok
      subst hok
      -- every later update preserves the renderer of `new2`
      have hr2 : new2.renderer = ac.renderer := by
        split at heq
        · split at heq
          · split at heq
            · exact absurd heq (by simp)
            · rename_i _ _ _ merged _
              injection heq with heq
              subst heq
              rfl
          · injection heq with heq
            subst heq
            rfl
        · injection heq with heq
          subst heq
          rfl
      repeat' split
      all_goals simp [hr2]
  · intro c ac fc hne hok
    simp only [mergeFieldConfigs,
      if_neg (show ¬ac.renderer ≠ "auto" by simp [hne])] at hok
    split at hok
    · exact absurd hok (by simp)
    · rename_i new2 heq
      injection hok with hok
      subst hok
      have hr2 : new2.renderer = c.renderer := by
        split at heq
        · split at heq
          · split at heq
            · exact absurd heq (by simp)
            · rename_i _ _ _ merged _
              injection heq with heq
              subst heq
              rfl
          · injection heq with heq
            subst heq
            rfl
        · injection heq with heq
          subst heq
          rfl
      repeat' split
      all_goals simp [hr2]
  · intro config kvs
    simp only [applyPathConfig, setKey, getKey]
    rw [lookup_setEntry]
    simp only [if_pos rfl, Option.some_bind]
    rcases hpl : config.placeholder with _ | p
    · by_cases hpr : config.props.isEmpty <;>
        simp [hpl, hpr, getKey, lookup_setEntry]
    · by_cases hps : p = "" <;> by_cases hpr : config.props.isEmpty <;>
        simp [hpl, hps, hpr, getKey, lookup_setEntry]

/-- Witness for the amended C2 claim at concrete configs. -/
theorem C2_amended_precedence_witness :
    ((({ renderer := "slider" } : FieldConfig).renderer ≠ "auto")
      ∧ mergeFieldConfigs { renderer := "json" } { renderer := "slider" }
          = .ok { renderer := "slider" }
      ∧ ({ renderer := "slider" } : FieldConfig).renderer = "slider")
    ∧ ((({ renderer := "auto" } : FieldConfig).renderer = "auto")
      ∧ mergeFieldConfigs { renderer := "json" } { renderer := "auto" }
          = .ok { renderer := "json" }
      ∧ ({ renderer := "json" } : FieldConfig).renderer = "json")
    ∧ ((getKey "ui_config" (applyPathConfig { renderer := "select" }
          (.obj [("ui_config",
                  .obj [("renderer", .s "slider")])]))).bind
        (getKey "renderer")) = some (.s "select") := by
  refine ⟨⟨by simp, rfl, ?_⟩, ⟨rfl, rfl, ?_⟩, ?_⟩
  · exact C2_amended_precedence.1 { renderer := "json" }
      { renderer := "slider" } { renderer := "slider" } (by simp) rfl
  · exact C2_amended_precedence.2.1 { renderer := "json" }
      { renderer := "auto" } { renderer := "json" } rfl rfl
  · exact C2_amended_precedence.2.2 { renderer := "select" }
      [("ui_config", .obj [("renderer", .s "slider")])]

/-- C7 (code bug): merging two configuration layers that both set the
same per-view display block crashes instead of merging per-subfield:
`_merge_display_configs` reads `override_view.icon`, but `ViewDisplay`
has no `icon` attribute, so the merge raises `AttributeError`; through
`extract_field_config`, a class config and an annotation config whose
displays both set `tree` make the whole extraction raise — the set
`tree.subtitle` of the less specific layer is lost instead of being
inherited. -/
theorem C7_merge_crash :
    mergeDisplayConfigs
        { tree := some { subtitle := some "S" } }
        { tree := some { title := some "T" } }
      = .error "AttributeError: ViewDisplay object has no attribute icon"
    ∧ extract_field_config
        { metadata := [.fieldConfig
            { display := some { tree := some { title := some "T" } } }] }
        (.modelRef "Address")
        [("Address",
          { display := some { tree := some { subtitle := some "S" } } })]
      = .error "AttributeError: ViewDisplay object has no attribute icon" :=
  ⟨rfl, rfl⟩

/-! ## Schema nesting depth (for the depth-ceiling claim)

The nesting depth of a descriptor counts only the recursion-carrying
entries of the schema dicts produced by the resolver: `items`,
`additionalProperties`, the values of `fields`, and the elements of
`variants`.  Entries such as `default` may hold arbitrarily deep plain
JSON but are not produced by resolver recursion. -/

mutual

/-- Nesting depth of a descriptor. -/
def sdepth : JVal → Nat
  | .obj kvs => sdepthEntries kvs
  | _ => 0

/-- Maximum entry depth of a descriptor dict. -/
def sdepthEntries : List (String × JVal) → Nat
  | [] => 0
  | (k, v) :: rest => max (entryDepth k v) (sdepthEntries rest)

/-- Contribution of one entry: recursion-carrying keys count one level
plus the depth of what they hold; all other keys count zero. -/
def entryDepth (k : String) (v : JVal) : Nat :=
  if k = "items" ∨ k = "additionalProperties" then 1 + sdepth v
  else if k = "fields" then 1 + sdepthVals v
  else if k = "variants" then 1 + sdepthArr v
  else 0

/-- Maximum depth of the values of a `fields` dict. -/
def sdepthVals : JVal → Nat
  | .obj kvs => sdepthVList kvs
  | _ => 0

/-- Maximum depth over a list of named field descriptors. -/
def sdepthVList : List (String × JVal) → Nat
  | [] => 0
  | (_, v) :: rest => max (sdepth v) (sdepthVList rest)

/-- Maximum depth of the elements of a `variants` array. -/
def sdepthArr : JVal → Nat
  | .arr xs => sdepthL xs
  | _ => 0

/-- Maximum depth over a list of descriptors. -/
def sdepthL : List JVal → Nat
  | [] => 0
  | v :: rest => max (sdepth v) (sdepthL rest)

end

/-- Depth of a resolver result (`0` for a propagated exception). -/
def okd : Except String JVal → Nat
  | .ok v => sdepth v
  | .error _ => 0

/-- Writing a non-recursion-carrying key never increases the depth. -/
theorem sdepth_setKey_le (k : String) (v : JVal) (s : JVal)
    (h0 : ∀ w, entryDepth k w = 0) : sdepth (setKey k v s) ≤ sdepth s := by
  cases s with
  | obj kvs =>
      simp only [setKey, sdepth]
      induction kvs with
      | nil => simp [setEntry, sdepthEntries, h0]
      | cons kv rest ih =>
          obtain ⟨k0, v0⟩ := kv
          by_cases hk : k0 = k
          · subst hk
            simp [setEntry, sdepthEntries, h0]
          · simp only [setEntry, if_neg hk, sdepthEntries]
            omega
  | null => simp [setKey]
  | b _ => simp [setKey]
  | i _ => simp [setKey]
  | s _ => simp [setKey]
  | arr _ => simp [setKey]

/-- A pointwise bound on descriptor depths bounds the list maximum. -/
theorem sdepthL_le (xs : List JVal) (n : Nat)
    (h : ∀ x ∈ xs, sdepth x ≤ n) : sdepthL xs ≤ n := by
  induction xs with
  | nil => simp [sdepthL]
  | cons x rest ih =>
      simp only [sdepthL]
      have h1 := h x (List.mem_cons_self x rest)
      have h2 := ih (fun y hy => h y (List.mem_cons_of_mem x hy))
      omega

/-- A pointwise bound on field-descriptor depths bounds the maximum. -/
theorem sdepthVList_le (kvs : List (String × JVal)) (n : Nat)
    (h : ∀ kv ∈ kvs, sdepth kv.2 ≤ n) : sdepthVList kvs ≤ n := by
  induction kvs with
  | nil => simp [sdepthVList]
  | cons kv rest ih =>
      obtain ⟨k, v⟩ := kv
      simp only [sdepthVList]
      have h1 : sdepth v ≤ n := h (k, v) (List.mem_cons_self _ rest)
      have h2 := ih (fun y hy => h y (List.mem_cons_of_mem _ hy))
      omega

/-- Keys other than the four recursion-carrying ones contribute no
depth. -/
theorem entryDepth_zero (k : String) (h1 : k ≠ "items")
    (h2 : k ≠ "additionalProperties") (h3 : k ≠ "fields")
    (h4 : k ≠ "variants") : ∀ w, entryDepth k w = 0 := by
  intro w
  simp [entryDepth, h1, h2, h3, h4]

mutual

/-- The resolver output of a field never nests more than the remaining
depth budget. -/
theorem okd_parse_field (env : Env) (name : String) (fi : FieldInfo)
    (t : PyType) (maxd d : Nat) (cfgs : List (String × FieldConfig)) :
    okd (parse_field env name fi t maxd d cfgs) ≤ maxd - d := by
  by_cases hguard : d ≥ maxd
  · rw [parse_field.eq_def, dif_pos hguard]
    simp [okd, sdepth, sdepthEntries, entryDepth]
  · have hz : ∀ (k : String), k ≠ "items" → k ≠ "additionalProperties" →
        k ≠ "fields" → k ≠ "variants" → ∀ (w s : JVal),
        sdepth (setKey k w s) ≤ sdepth s :=
      fun k a b c dd w s => sdepth_setKey_le k w s (entryDepth_zero k a b c dd)
    rw [parse_field.eq_def, dif_neg hguard]
    split
    · -- Annotated
      rename_i base metas
      have := okd_parse_field env name fi base maxd d cfgs
      omega
    · -- Union
      rename_i args
      have := okd_parse_union env name fi args maxd d cfgs (by omega)
      omega
    · -- Literal
      rename_i vals
      cases hE : extract_field_config fi (.literalT vals) cfgs with
      | error e => simp [okd]
      | ok fc => simp [okd, sdepth, sdepthEntries, entryDepth]
    · -- Enum
      rename_i ename evals
      cases hE : extract_field_config fi (.enumT ename evals) cfgs with
      | error e => simp [okd]
      | ok fc => simp [okd, sdepth, sdepthEntries, entryDepth]
    · -- List
      rename_i item_type
      cases hE : extract_field_config fi (.listT item_type) cfgs with
      | error e => simp [okd]
      | ok fc =>
          have hrec := okd_parse_field env "item" {} item_type maxd (d + 1)
            cfgs
          cases hI : parse_field env "item" {} item_type maxd (d + 1)
              cfgs with
          | error e => simp [okd]
          | ok items =>
              rw [hI] at hrec
              simp only [okd] at hrec
              simp [okd, sdepth, sdepthEntries, entryDepth]
              omega
    · -- Set
      rename_i item_type
      cases hE : extract_field_config fi (.setT item_type) cfgs with
      | error e => simp [okd]
      | ok fc =>
          have hrec := okd_parse_field env "item" {} item_type maxd (d + 1)
            cfgs
          cases hI : parse_field env "item" {} item_type maxd (d + 1)
              cfgs with
          | error e => simp [okd]
          | ok items =>
              rw [hI] at hrec
              simp only [okd] at hrec
              simp [okd, sdepth, sdepthEntries, entryDepth]
              omega
    · -- Tuple
      rename_i item_type
      cases hE : extract_field_config fi (.tupleT item_type) cfgs with
      | error e => simp [okd]
      | ok fc =>
          have hrec := okd_parse_field env "item" {} item_type maxd (d + 1)
            cfgs
          cases hI : parse_field env "item" {} item_type maxd (d + 1)
              cfgs with
          | error e => simp [okd]
          | ok items =>
              rw [hI] at hrec
              simp only [okd] at hrec
              simp [okd, sdepth, sdepthEntries, entryDepth]
              omega
    · -- Dict
      rename_i key_type value_type
      cases hE : extract_field_config fi (.dictT key_type value_type)
          cfgs with
      | error e => simp [okd]
      | ok fc =>
          have hrec := okd_parse_field env "value" {} value_type maxd (d + 1)
            cfgs
          cases hI : parse_field env "value" {} value_type maxd (d + 1)
              cfgs with
          | error e => simp [okd]
          | ok ap =>
              rw [hI] at hrec
              simp only [okd] at hrec
              simp [okd, sdepth, sdepthEntries, entryDepth]
              omega
    · -- nested model
      rename_i mname
      have hrec := okd_parse_model env (env mname) maxd (d + 1) cfgs
      cases hM : parse_model env (env mname) maxd (d + 1) cfgs with
      | error e => simp [okd]
      | ok result =>
          rw [hM] at hrec
          simp only [okd] at hrec
          have hr3 : sdepth (setKey "python_type" (.s mname)
                (setKey "required" (.b (!is_optional_type fi.ann))
                  (setKey "title" (.s (titleOf fi name)) result)))
              ≤ sdepth result :=
            Nat.le_trans (hz _ (by decide) (by decide) (by decide)
                (by decide) _ _)
              (Nat.le_trans (hz _ (by decide) (by decide) (by decide)
                  (by decide) _ _)
                (hz _ (by decide) (by decide) (by decide) (by decide) _ _))
          have hr4 : sdepth (match fi.description with
                | some dsc => if dsc = "" then
                      setKey "python_type" (.s mname)
                        (setKey "required" (.b (!is_optional_type fi.ann))
                          (setKey "title" (.s (titleOf fi name)) result))
                    else setKey "description" (.s dsc)
                      (setKey "python_type" (.s mname)
                        (setKey "required" (.b (!is_optional_type fi.ann))
                          (setKey "title" (.s (titleOf fi name)) result)))
                | none =>
                    setKey "python_type" (.s mname)
                      (setKey "required" (.b (!is_optional_type fi.ann))
                        (setKey "title" (.s (titleOf fi name)) result)))
              ≤ sdepth result := by
            cases fi.description with
            | none => exact hr3
            | some dsc =>
                by_cases hdsc : dsc = ""
                · simp only [hdsc, if_pos rfl]
                  exact hr3
                · simp only [if_neg hdsc]
                  exact Nat.le_trans (hz _ (by decide) (by decide)
                    (by decide) (by decide) _ _) hr3
          cases hE : extract_field_config fi (.modelRef mname) cfgs with
          | error e => simp [okd]
          | ok fcOpt =>
              cases fcOpt with
              | some fc =>
                  simp only [okd]
                  refine Nat.le_trans (Nat.le_trans (hz _ (by decide)
                    (by decide) (by decide) (by decide) _ _) hr4) ?_
                  omega
              | none =>
                  simp only [okd]
                  exact Nat.le_trans hr4 (by omega)
    · -- primitives / datetimes
      cases hE : extract_field_config fi t cfgs with
      | error e => simp [okd]
      | ok fc =>
          cases hFmt : get_format_for_type t with
          | none => simp [okd, hFmt, sdepth, sdepthEntries, entryDepth]
          | some f =>
              simp [okd, hFmt, setKey, setEntry, sdepth, sdepthEntries,
                entryDepth]
termination_by (maxd - d, 1, sizeOf t, 1)

/-- The resolver output of a union field never nests more than the
remaining depth budget (unions are resolved only below the ceiling). -/
theorem okd_parse_union (env : Env) (name : String) (fi : FieldInfo)
    (args : List PyType) (maxd d : Nat)
    (cfgs : List (String × FieldConfig)) (hd : d < maxd) :
    okd (parse_union_field env name fi args maxd d cfgs) ≤ maxd - d := by
  by_cases h1 : (args.filter notNoneType).length = 1
  · -- Optional collapse
    rw [parse_union_field.eq_def, dif_pos h1]
    simp only []
    have hsz : sizeOf (headOr (args.filter notNoneType) PyType.noneT)
        < sizeOf args := by
      rcases List.length_eq_one.mp h1 with ⟨a, ha⟩
      rw [ha]
      exact List.sizeOf_lt_of_mem
        (List.mem_of_mem_filter (ha.symm ▸ List.mem_singleton_self a))
    have hrec := okd_parse_field env name fi
      (headOr (args.filter notNoneType) PyType.noneT) maxd d cfgs
    cases hP : parse_field env name fi
        (headOr (args.filter notNoneType) PyType.noneT) maxd d cfgs with
    | error e => simp [okd]
    | ok single =>
        rw [hP] at hrec
        simp only [okd] at hrec ⊢
        exact Nat.le_trans (sdepth_setKey_le "required" _ _
          (entryDepth_zero "required" (by decide) (by decide) (by decide)
            (by decide))) hrec
  · -- full union
    rw [parse_union_field.eq_def, dif_neg h1]
    simp only []
    have hloop := okd_loop env (discFieldOf fi) maxd d cfgs
      (args.filter notNoneType) 0 []
    cases hL : unionVariantsLoop env (discFieldOf fi) maxd d cfgs
        (args.filter notNoneType) 0 [] with
    | error e => simp [okd]
    | ok vm =>
        have hvar : ∀ v ∈ vm.1, sdepth v ≤ maxd - (d + 1) :=
          fun v hv => hloop vm hL v hv
        have hv : sdepthL vm.1 ≤ maxd - (d + 1) :=
          sdepthL_le vm.1 _ hvar
        cases hdi : extract_discriminator fi with
        | none =>
            cases hE : extract_field_config fi .noneT cfgs with
            | error e => simp [okd]
            | ok fcOpt =>
                cases fcOpt with
                | some fc =>
                    simp [okd, setKey, setEntry, sdepth, sdepthEntries,
                      entryDepth, sdepthArr]
                    omega
                | none =>
                    simp [okd, setKey, setEntry, sdepth, sdepthEntries,
                      entryDepth, sdepthArr]
                    omega
        | some f =>
            cases hE : extract_field_config fi .noneT cfgs with
            | error e => simp [okd]
            | ok fcOpt =>
                cases fcOpt with
                | some fc =>
                    simp [okd, setKey, setEntry, sdepth, sdepthEntries,
                      entryDepth, sdepthArr]
                    omega
                | none =>
                    simp [okd, setKey, setEntry, sdepth, sdepthEntries,
                      entryDepth, sdepthArr]
                    omega
termination_by (maxd - d, 1, sizeOf args, 1)
decreasing_by
  · apply Prod.Lex.right
    apply Prod.Lex.right
    exact Prod.Lex.left _ _ hsz
  · apply Prod.Lex.right
    apply Prod.Lex.right
    rcases Nat.lt_or_ge (sizeOf (args.filter notNoneType)) (sizeOf args)
        with hlt | hge
    · exact Prod.Lex.left _ _ hlt
    · have heq : sizeOf (args.filter notNoneType) = sizeOf args :=
        Nat.le_antisymm (sizeOf_filter_le notNoneType args) hge
      rw [heq]
      exact Prod.Lex.right _ (by omega)

/-- Every variant descriptor built by the union loop stays within the
depth budget of the next level. -/
theorem okd_loop (env : Env) (discField : Option String) (maxd d : Nat)
    (cfgs : List (String × FieldConfig)) (vs : List PyType) (i : Nat)
    (m : List (String × Nat)) :
    ∀ r, unionVariantsLoop env discField maxd d cfgs vs i m = .ok r →
      ∀ v ∈ r.1, sdepth v ≤ maxd - (d + 1) :=
  match vs with
  | [] => by
    intro r hr v hv
    rw [unionVariantsLoop.eq_def] at hr
    cases hr
    simp at hv
  | vt :: rest => by
    intro r hr v hv
    rw [unionVariantsLoop.eq_def] at hr
    simp only [] at hr
    have hrec := okd_parse_field env ("variant_" ++ toString i) {} vt maxd
      (d + 1) cfgs
    cases hP : parse_field env ("variant_" ++ toString i) {} vt maxd (d + 1)
        cfgs with
    | error e =>
        rw [hP] at hr
        cases hr
    | ok v0 =>
        rw [hP] at hr
        rw [hP] at hrec
        simp only [okd] at hrec
        have hz : ∀ (k : String), k ≠ "items" →
            k ≠ "additionalProperties" → k ≠ "fields" → k ≠ "variants" →
            ∀ (w s : JVal), sdepth (setKey k w s) ≤ sdepth s :=
          fun k a b c dd w s =>
            sdepth_setKey_le k w s (entryDepth_zero k a b c dd)
        have hv3 : sdepth (setKey "title"
              (.s (get_variant_name vt))
              (setKey "variant_name" (.s (get_variant_name vt))
                (setKey "variant_index" (.i (i : Int)) v0)))
            ≤ maxd - (d + 1) :=
          Nat.le_trans (hz _ (by decide) (by decide) (by decide) (by decide)
              _ _)
            (Nat.le_trans (hz _ (by decide) (by decide) (by decide)
                (by decide) _ _)
              (Nat.le_trans (hz _ (by decide) (by decide) (by decide)
                  (by decide) _ _) hrec))
        simp only [] at hr
        cases discField with
        | some df =>
          simp only [] at hr
          cases hL2 : unionVariantsLoop env (some df) maxd d cfgs rest
              (i + 1) (List.foldl (fun mm vv => insertNat mm (pyStr vv) i)
                m (get_discriminator_values env vt df)) with
          | error e =>
              rw [hL2] at hr
              cases hr
          | ok pr2 =>
              rw [hL2] at hr
              cases hr
              simp only [List.mem_cons] at hv
              rcases hv with hv | hv
              · subst hv
                exact Nat.le_trans (hz _ (by decide) (by decide) (by decide)
                    (by decide) _ _) hv3
              · exact okd_loop env (some df) maxd d cfgs rest (i + 1) _ pr2
                  hL2 v hv
        | none =>
          simp only [] at hr
          cases hL2 : unionVariantsLoop env none maxd d cfgs rest
              (i + 1) m with
          | error e =>
              rw [hL2] at hr
              cases hr
          | ok pr2 =>
              rw [hL2] at hr
              cases hr
              simp only [List.mem_cons] at hv
              rcases hv with hv | hv
              · subst hv
                exact hv3
              · exact okd_loop env none maxd d cfgs rest (i + 1) m pr2
                  hL2 v hv
termination_by (maxd - d, 1, sizeOf vs, 0)
decreasing_by
  · rcases Nat.lt_or_ge (maxd - (d + 1)) (maxd - d) with hlt | hge
    · exact Prod.Lex.left _ _ hlt
    · have heq : maxd - (d + 1) = maxd - d := by omega
      rw [heq]
      apply Prod.Lex.right
      apply Prod.Lex.right
      exact Prod.Lex.left _ _
        (by try simp only [List.cons.sizeOf_spec]; omega)
  · apply Prod.Lex.right
    apply Prod.Lex.right
    exact Prod.Lex.left _ _
      (by try simp only [List.cons.sizeOf_spec]; omega)
  · apply Prod.Lex.right
    apply Prod.Lex.right
    exact Prod.Lex.left _ _
      (by try simp only [List.cons.sizeOf_spec]; omega)

/-- The resolver output of a record never nests more than one level
beyond the remaining depth budget. -/
theorem okd_parse_model (env : Env) (m : ModelDef) (maxd d : Nat)
    (cfgs : List (String × FieldConfig)) :
    okd (parse_model env m maxd d cfgs) ≤ (maxd - d) + 1 := by
  rw [parse_model.eq_def]
  split
  · simp [okd, sdepth, sdepthEntries, entryDepth, sdepthVals, sdepthVList]
  · rename_i hguard
    cases hF : parseFields env maxd d cfgs m.fields with
    | error e => simp [okd]
    | ok flds =>
        have hflds := okd_parseFields env maxd d cfgs m.fields flds hF
        simp only [okd, sdepth, sdepthEntries, entryDepth]
        simp only [String.reduceEq, or_self, or_false, false_or,
          if_false, if_true, reduceIte]
        have : sdepthVals (.obj flds) ≤ maxd - d := by
          simp only [sdepthVals]
          exact sdepthVList_le flds _ hflds
        omega
termination_by (maxd - d, 3, 0, 0)

/-- Every field descriptor built by the model loop stays within the
remaining depth budget. -/
theorem okd_parseFields (env : Env) (maxd d : Nat)
    (cfgs : List (String × FieldConfig))
    (flds : List (String × FieldInfo)) :
    ∀ r, parseFields env maxd d cfgs flds = .ok r →
      ∀ kv ∈ r, sdepth kv.2 ≤ maxd - d := by
  intro r hr kv hkv
  rw [parseFields.eq_def] at hr
  split at hr
  · cases hr
    simp at hkv
  · rename_i fname fi rest
    simp only [] at hr
    have hrec := okd_parse_field env fname fi (fi.ann.getD .strT) maxd d cfgs
    cases hP : parse_field env fname fi (fi.ann.getD .strT) maxd d cfgs with
    | error e =>
        rw [hP] at hr
        cases hr
    | ok fs =>
        rw [hP] at hr
        rw [hP] at hrec
        simp only [okd] at hrec
        cases hR : parseFields env maxd d cfgs rest with
        | error e =>
            rw [hR] at hr
            cases hr
        | ok rfs =>
            rw [hR] at hr
            cases hr
            simp only [List.mem_cons] at hkv
            rcases hkv with hkv | hkv
            · subst hkv
              exact hrec
            · exact okd_parseFields env maxd d cfgs rest rfs hR kv hkv
termination_by (maxd - d, 2, sizeOf flds, 0)

end

/-- C3: for every field type and every — possibly cyclic or
self-referential — record environment, schema resolution with depth
ceiling `maxd` terminates (the resolver is a total function here, so
this is witnessed by the statement being about its value) and never
recurses past the ceiling: the nesting depth of the descriptor
`parse_field` returns is at most the remaining budget `maxd - d`, and
the record descriptor of `parse_model` at most one more (its own
`fields` level).  At the ceiling (`current_depth = maxd + k ≥ maxd`)
both return the degenerate string-kind / empty-record descriptor
annotated "Max depth reached" instead of recursing further or
raising. -/
theorem C3_depth_ceiling (env : Env) (name : String) (fi : FieldInfo)
    (t : PyType) (m : ModelDef) (maxd d k : Nat)
    (cfgs : List (String × FieldConfig)) :
    okd (parse_field env name fi t maxd d cfgs) ≤ maxd - d ∧
    okd (parse_model env m maxd d cfgs) ≤ (maxd - d) + 1 ∧
    parse_field env name fi t maxd (maxd + k) cfgs =
      .ok (.obj [("type", .s "string"), ("title", .s name),
                 ("description", .s "Max depth reached")]) ∧
    parse_model env m maxd (maxd + k) cfgs =
      .ok (.obj [("name", .s m.name), ("type", .s "object"),
                 ("description", .s "Max depth reached"),
                 ("fields", .obj [])]) := by
  refine ⟨okd_parse_field env name fi t maxd d cfgs,
    okd_parse_model env m maxd d cfgs, ?_, ?_⟩
  · rw [parse_field.eq_def, dif_pos (by omega)]
  · rw [parse_model.eq_def, dif_pos (by omega)]

/-! ## Shape of resolver outputs (for the optional-collapse claim) -/

/-- Dict-shaped JSON values. -/
def isObj : JVal → Bool
  | .obj _ => true
  | _ => false

/-- Resolver results that are dict-shaped when successful. -/
def isObjE : Except String JVal → Bool
  | .ok v => isObj v
  | .error _ => true

/-- Writing a key preserves dict-shape. -/
theorem isObj_setKey (k : String) (v : JVal) (s : JVal) :
    isObj (setKey k v s) = isObj s := by
  cases s <;> simp [setKey, isObj]

/-- Reading a key back through a write. -/
theorem getKey_setKey (k k' : String) (v : JVal) (s : JVal) :
    getKey k (setKey k' v s)
      = if k = k' ∧ isObj s = true then some v else getKey k s := by
  cases s with
  | obj kvs =>
      simp only [setKey, getKey, isObj, and_true]
      exact lookup_setEntry kvs k k' v
  | null => simp [setKey, getKey, isObj]
  | b x => simp [setKey, getKey, isObj]
  | i x => simp [setKey, getKey, isObj]
  | s x => simp [setKey, getKey, isObj]
  | arr x => simp [setKey, getKey, isObj]

/-- `parse_model` only produces dict-shaped descriptors. -/
theorem obj_parse_model (env : Env) (m : ModelDef) (maxd d : Nat)
    (cfgs : List (String × FieldConfig)) :
    ∀ r, parse_model env m maxd d cfgs = .ok r → isObj r = true := by
  intro r hr
  rw [parse_model.eq_def] at hr
  split at hr
  · cases hr
    rfl
  · cases hF : parseFields env maxd d cfgs m.fields with
    | error e =>
        rw [hF] at hr
        cases hr
    | ok flds =>
        rw [hF] at hr
        simp only [] at hr
        cases hr
        rfl

mutual

/-- `parse_field` only produces dict-shaped descriptors. -/
theorem obj_parse_field (env : Env) (name : String) (fi : FieldInfo)
    (t : PyType) (maxd d : Nat) (cfgs : List (String × FieldConfig)) :
    isObjE (parse_field env name fi t maxd d cfgs) = true := by
  by_cases hguard : d ≥ maxd
  · rw [parse_field.eq_def, dif_pos hguard]
    rfl
  · rw [parse_field.eq_def, dif_neg hguard]
    split
    · -- Annotated
      rename_i base metas
      exact obj_parse_field env name fi base maxd d cfgs
    · -- Union
      rename_i args
      exact obj_parse_union env name fi args maxd d cfgs
    · -- Literal
      rename_i vals
      cases hE : extract_field_config fi (.literalT vals) cfgs with
      | error e => rfl
      | ok fc => rfl
    · -- Enum
      rename_i ename evals
      cases hE : extract_field_config fi (.enumT ename evals) cfgs with
      | error e => rfl
      | ok fc => rfl
    · -- List
      rename_i item_type
      cases hE : extract_field_config fi (.listT item_type) cfgs with
      | error e => rfl
      | ok fc =>
          cases hI : parse_field env "item" {} item_type maxd (d + 1)
              cfgs with
          | error e => rfl
          | ok items => rfl
    · -- Set
      rename_i item_type
      cases hE : extract_field_config fi (.setT item_type) cfgs with
      | error e => rfl
      | ok fc =>
          cases hI : parse_field env "item" {} item_type maxd (d + 1)
              cfgs with
          | error e => rfl
          | ok items => rfl
    · -- Tuple
      rename_i item_type
      cases hE : extract_field_config fi (.tupleT item_type) cfgs with
      | error e => rfl
      | ok fc =>
          cases hI : parse_field env "item" {} item_type maxd (d + 1)
              cfgs with
          | error e => rfl
          | ok items => rfl
    · -- Dict
      rename_i key_type value_type
      cases hE : extract_field_config fi (.dictT key_type value_type)
          cfgs with
      | error e => rfl
      | ok fc =>
          cases hI : parse_field env "value" {} value_type maxd (d + 1)
              cfgs with
          | error e => rfl
          | ok ap => rfl
    · -- nested model
      rename_i mname
      cases hM : parse_model env (env mname) maxd (d + 1) cfgs with
      | error e => rfl
      | ok result =>
          have hobj : isObj result = true :=
            obj_parse_model env (env mname) maxd (d + 1) cfgs result hM
          cases hE : extract_field_config fi (.modelRef mname) cfgs with
          | error e => simp [isObjE]
          | ok fcOpt =>
              cases fcOpt with
              | some fc =>
                  cases fi.description with
                  | none => simp [isObjE, isObj_setKey, hobj]
                  | some dsc =>
                      by_cases hdsc : dsc = "" <;>
                        simp [isObjE, isObj_setKey, hobj, hdsc]
              | none =>
                  cases fi.description with
                  | none => simp [isObjE, isObj_setKey, hobj]
                  | some dsc =>
                      by_cases hdsc : dsc = "" <;>
                        simp [isObjE, isObj_setKey, hobj, hdsc]
    · -- primitives / datetimes
      cases hE : extract_field_config fi t cfgs with
      | error e => rfl
      | ok fc =>
          cases hFmt : get_format_for_type t with
          | none => simp [isObjE, hFmt, isObj]
          | some f =>
              simp only [isObjE, hFmt]
              rw [isObj_setKey]
              rfl
termination_by (maxd - d, 1, sizeOf t, 1)

/-- `parse_union_field` only produces dict-shaped descriptors. -/
theorem obj_parse_union (env : Env) (name : String) (fi : FieldInfo)
    (args : List PyType) (maxd d : Nat)
    (cfgs : List (String × FieldConfig)) :
    isObjE (parse_union_field env name fi args maxd d cfgs) = true := by
  rw [parse_union_field.eq_def]
  by_cases h1 : (args.filter notNoneType).length = 1
  · rw [dif_pos h1]
    simp only []
    have hsz : sizeOf (headOr (args.filter notNoneType) PyType.noneT)
        < sizeOf args := by
      rcases List.length_eq_one.mp h1 with ⟨a, ha⟩
      rw [ha]
      exact List.sizeOf_lt_of_mem
        (List.mem_of_mem_filter (ha.symm ▸ List.mem_singleton_self a))
    have hrec := obj_parse_field env name fi
      (headOr (args.filter notNoneType) PyType.noneT) maxd d cfgs
    cases hP : parse_field env name fi
        (headOr (args.filter notNoneType) PyType.noneT) maxd d cfgs with
    | error e => rfl
    | ok single =>
        rw [hP] at hrec
        simp only [isObjE] at hrec ⊢
        rw [isObj_setKey]
        exact hrec
  · rw [dif_neg h1]
    simp only []
    cases hL : unionVariantsLoop env (discFieldOf fi) maxd d cfgs
        (args.filter notNoneType) 0 [] with
    | error e => rfl
    | ok vm =>
        cases hdi : extract_discriminator fi with
        | none =>
            cases hE : extract_field_config fi .noneT cfgs with
            | error e => simp [isObjE]
            | ok fcOpt =>
                cases fcOpt with
                | some fc =>
                    simp only [isObjE, isObj_setKey]
                    rfl
                | none =>
                    simp only [isObjE, isObj_setKey]
                    rfl
        | some f =>
            cases hE : extract_field_config fi .noneT cfgs with
            | error e => simp [isObjE]
            | ok fcOpt =>
                cases fcOpt with
                | some fc =>
                    simp only [isObjE, isObj_setKey]
                    rfl
                | none =>
                    simp only [isObjE, isObj_setKey]
                    rfl
termination_by (maxd - d, 1, sizeOf args, 1)
decreasing_by
  apply Prod.Lex.right
  apply Prod.Lex.right
  exact Prod.Lex.left _ _ hsz

end

/-! ## The `required` flag (for the optional-collapse claim) -/

/-- A successful resolver result carries `required = true`. -/
def reqOk : Except String JVal → Prop
  | .error _ => True
  | .ok s => getKey "required" s = some (.b true)

/-- Python flattens nested `Annotated`, so an `Annotated` annotation
never directly wraps another `Annotated`. -/
def flatAnn : PyType → Bool
  | .annotated (.annotated _ _) _ => false
  | _ => true

/-- Stripping one `Annotated` layer. -/
def unwrapAnn : PyType → PyType
  | .annotated base _ => base
  | t => t

/-- After stripping one layer of a flat type, no `Annotated` remains. -/
theorem unwrap_not_ann (t : PyType) (h : flatAnn t = true) :
    ∀ b mm, unwrapAnn t ≠ PyType.annotated b mm := by
  cases t with
  | annotated base metas =>
      cases base <;> simp [flatAnn, unwrapAnn] at h ⊢
  | _ => simp [unwrapAnn]

/-- Optionality is decided on the stripped type. -/
theorem is_optional_unwrap (t : PyType) (h : flatAnn t = true) :
    is_optional_type (some (unwrapAnn t)) = is_optional_type (some t) := by
  cases t with
  | annotated base metas =>
      cases base <;> simp [flatAnn, unwrapAnn, is_optional_type] at h ⊢
  | _ => simp [unwrapAnn]

/-- Below the ceiling, `parse_field` resolves the stripped type. -/
theorem parse_field_unwrap (env : Env) (name : String) (fi : FieldInfo)
    (t : PyType) (maxd d : Nat) (cfgs : List (String × FieldConfig))
    (hd : d < maxd) :
    parse_field env name fi t maxd d cfgs
      = parse_field env name fi (unwrapAnn t) maxd d cfgs := by
  cases t with
  | annotated base metas =>
      conv_lhs => rw [parse_field.eq_def]
      rw [dif_neg (by omega)]
      simp only [unwrapAnn]
  | _ => simp only [unwrapAnn]

/-- A field whose declared (non-`Annotated`) type is non-optional
resolves with `required = true`, whatever its default. -/
theorem req_main (env : Env) (name : String) (fi : FieldInfo)
    (t : PyType) (maxd d : Nat) (cfgs : List (String × FieldConfig))
    (hd : d < maxd)
    (hna : ∀ b mm, t ≠ PyType.annotated b mm)
    (hopt : is_optional_type fi.ann = false)
    (hu : is_optional_type (some t) = false) :
    reqOk (parse_field env name fi t maxd d cfgs) := by
  rw [parse_field.eq_def, dif_neg (by omega : ¬ d ≥ maxd)]
  split
  · -- Annotated: excluded
    rename_i base metas
    exact absurd rfl (hna base metas)
  · -- Union
    rename_i args
    have hu2 : args.any (fun a => !(notNoneType a)) = false := by
      simpa [is_optional_type] using hu
    have hall : ∀ a ∈ args, notNoneType a = true := by
      intro a ha
      have h3 := List.any_eq_false.mp hu2 a ha
      simpa using h3
    have hfil : args.filter notNoneType = args := by
      rw [List.filter_eq_self]
      intro a ha
      exact hall a ha
    have hlt : decide (args.length < args.length) = false := by simp
    rw [parse_union_field.eq_def]
    simp only []
    rw [hfil]
    by_cases h1 : args.length = 1
    · rw [dif_pos h1]
      cases hP : parse_field env name fi (headOr args PyType.noneT) maxd d
          cfgs with
      | error e => simp [reqOk]
      | ok single =>
          have hobj := obj_parse_field env name fi (headOr args PyType.noneT)
            maxd d cfgs
          rw [hP] at hobj
          simp only [isObjE] at hobj
          simp [reqOk, getKey_setKey, hobj, hlt]
    · rw [dif_neg h1]
      cases hL : unionVariantsLoop env (discFieldOf fi) maxd d cfgs args
          0 [] with
      | error e => simp [reqOk]
      | ok vm =>
          cases hdi : extract_discriminator fi with
          | none =>
              cases hE : extract_field_config fi .noneT cfgs with
              | error e => simp [reqOk]
              | ok fcOpt =>
                  cases fcOpt with
                  | some fc =>
                      simp only [reqOk, getKey_setKey]
                      simp [getKey, List.lookup, hlt]
                  | none =>
                      simp only [reqOk, getKey_setKey]
                      simp [getKey, List.lookup, hlt]
          | some f =>
              cases hE : extract_field_config fi .noneT cfgs with
              | error e => simp [reqOk]
              | ok fcOpt =>
                  cases fcOpt with
                  | some fc =>
                      simp only [reqOk, getKey_setKey]
                      simp [getKey, List.lookup, hlt]
                  | none =>
                      simp only [reqOk, getKey_setKey]
                      simp [getKey, List.lookup, hlt]
  · -- Literal
    rename_i vals
    cases hE : extract_field_config fi (.literalT vals) cfgs with
    | error e => simp [reqOk]
    | ok fc => simp [reqOk, getKey, List.lookup, hopt]
  · -- Enum
    rename_i ename evals
    cases hE : extract_field_config fi (.enumT ename evals) cfgs with
    | error e => simp [reqOk]
    | ok fc => simp [reqOk, getKey, List.lookup, hopt]
  · -- List
    rename_i item_type
    cases hE : extract_field_config fi (.listT item_type) cfgs with
    | error e => simp [reqOk]
    | ok fc =>
        cases hI : parse_field env "item" {} item_type maxd (d + 1) cfgs with
        | error e => simp [reqOk]
        | ok items => simp [reqOk, getKey, List.lookup]
  · -- Set
    rename_i item_type
    cases hE : extract_field_config fi (.setT item_type) cfgs with
    | error e => simp [reqOk]
    | ok fc =>
        cases hI : parse_field env "item" {} item_type maxd (d + 1) cfgs with
        | error e => simp [reqOk]
        | ok items => simp [reqOk, getKey, List.lookup]
  · -- Tuple
    rename_i item_type
    cases hE : extract_field_config fi (.tupleT item_type) cfgs with
    | error e => simp [reqOk]
    | ok fc =>
        cases hI : parse_field env "item" {} item_type maxd (d + 1) cfgs with
        | error e => simp [reqOk]
        | ok items => simp [reqOk, getKey, List.lookup]
  · -- Dict
    rename_i key_type value_type
    cases hE : extract_field_config fi (.dictT key_type value_type) cfgs with
    | error e => simp [reqOk]
    | ok fc =>
        cases hI : parse_field env "value" {} value_type maxd (d + 1)
            cfgs with
        | error e => simp [reqOk]
        | ok ap => simp [reqOk, getKey, List.lookup]
  · -- nested model
    rename_i mname
    cases hM : parse_model env (env mname) maxd (d + 1) cfgs with
    | error e => simp [reqOk]
    | ok result =>
        have hobj : isObj result = true :=
          obj_parse_model env (env mname) maxd (d + 1) cfgs result hM
        cases hE : extract_field_config fi (.modelRef mname) cfgs with
        | error e => simp [reqOk]
        | ok fcOpt =>
            cases fcOpt with
            | some fc =>
                cases fi.description with
                | none =>
                    simp [reqOk, getKey_setKey, isObj_setKey, hobj, hopt]
                | some dsc =>
                    by_cases hdsc : dsc = "" <;>
                      simp [reqOk, getKey_setKey, isObj_setKey, hobj, hopt,
                        hdsc]
            | none =>
                cases fi.description with
                | none =>
                    simp [reqOk, getKey_setKey, isObj_setKey, hobj, hopt]
                | some dsc =>
                    by_cases hdsc : dsc = "" <;>
                      simp [reqOk, getKey_setKey, isObj_setKey, hobj, hopt,
                        hdsc]
  · -- primitives / datetimes
    cases hE : extract_field_config fi t cfgs with
    | error e => simp [reqOk]
    | ok fc =>
        cases hFmt : get_format_for_type t with
        | none => simp [reqOk, getKey, List.lookup, hFmt, hopt]
        | some f =>
            simp only [reqOk, hFmt]
            simp only [getKey_setKey]
            simp [getKey, List.lookup, hopt]

/-- C4: below the depth ceiling, resolving `Optional[T]` — the union of
`T` with absence — yields exactly the descriptor of `T` with its
`required` entry overwritten to `false`, for every `T`; and the
`required` flag depends only on the nullability of the declared
annotation, never on the presence of a default: any field whose
declared (flat) annotation is non-optional resolves with
`required = true`, whatever `default` or `default_factory` it
carries. -/
theorem C4_optional_collapse (env : Env) (name : String) (fi : FieldInfo)
    (T t : PyType) (maxd d : Nat) (cfgs : List (String × FieldConfig))
    (hd : d < maxd) :
    (notNoneType T = true →
      parse_field env name fi (.unionT [T, .noneT]) maxd d cfgs =
        Except.map (setKey "required" (.b false))
          (parse_field env name fi T maxd d cfgs)) ∧
    (fi.ann = some t → is_optional_type fi.ann = false →
      flatAnn t = true →
      ∀ s, parse_field env name fi t maxd d cfgs = .ok s →
        getKey "required" s = some (.b true)) := by
  constructor
  · intro hT
    rw [parse_field.eq_def, dif_neg (by omega : ¬ d ≥ maxd)]
    simp only []
    rw [parse_union_field.eq_def]
    simp only []
    have hfil : List.filter notNoneType [T, PyType.noneT] = [T] := by
      simp only [List.filter, hT]
      rfl
    rw [hfil]
    rw [dif_pos (show ([T] : List PyType).length = 1 from rfl)]
    have hho : headOr [T] PyType.noneT = T := rfl
    rw [hho]
    cases hP : parse_field env name fi T maxd d cfgs with
    | error e => simp [Except.map]
    | ok single => simp [Except.map]
  · intro hann hopt hflat s hs
    have hru := req_main env name fi (unwrapAnn t) maxd d cfgs hd
      (unwrap_not_ann t hflat) hopt
      (by rw [is_optional_unwrap t hflat, ← hann]; exact hopt)
    rw [← parse_field_unwrap env name fi t maxd d cfgs hd] at hru
    rw [hs] at hru
    simpa [reqOk] using hru

/-- An integer field with a supplied default, for the optional-collapse
witness. -/
def fiW : FieldInfo := { ann := some .intT, default := some (.i 5) }

/-- Witness: collapsing `Optional[int]` equals the `int` descriptor with
`required` forced to `false`, and an `int` field with default `5` still
resolves with `required = true`. -/
theorem C4_optional_collapse_witness :
    (parse_field envC2 "age" {} (.unionT [.intT, .noneT]) 10 0 [] =
      Except.map (setKey "required" (.b false))
        (parse_field envC2 "age" {} .intT 10 0 [])) ∧
    Except.map (getKey "required") (parse_field envC2 "n" fiW .intT 10 0 [])
      = .ok (some (.b true)) := by
  constructor
  · exact (C4_optional_collapse envC2 "age" {} .intT .intT 10 0 []
      (by decide)).1 rfl
  · cases hs : parse_field envC2 "n" fiW .intT 10 0 [] with
    | error e =>
        simp [parse_field, extract_field_config, findFieldConfig, titleOf,
          humanize, pyTitle, descrOf, get_json_type, get_python_type_name,
          get_constraints, is_optional_type, List.lookup, fiW,
          get_format_for_type] at hs
    | ok s =>
        have hreq := (C4_optional_collapse envC2 "n" fiW .intT .intT 10 0 []
          (by decide)).2 rfl rfl rfl s hs
        simp [Except.map, hreq]

/-! ## Discriminator value mapping (for the discriminated-union claim) -/

/-- The mapping described by the spec: walking the variants in order,
one entry per literal value declared on the variant's discriminator
field, keyed by the value's string form and holding the variant's
zero-based index. -/
def discPairs (env : Env) (df : String) :
    List PyType → Nat → List (String × Nat)
  | [], _ => []
  | vt :: rest, i =>
      (get_discriminator_values env vt df).map (fun v => (pyStr v, i))
        ++ discPairs env df rest (i + 1)

/-- Writing a fresh key into the mapping appends it. -/
theorem insertNat_fresh (m : List (String × Nat)) (k : String) (v : Nat)
    (h : k ∉ m.map Prod.fst) : insertNat m k v = m ++ [(k, v)] := by
  induction m with
  | nil => rfl
  | cons kv rest ih =>
      obtain ⟨k0, v0⟩ := kv
      simp only [List.map, List.mem_cons] at h
      push_neg at h
      have hne : ¬ (k0 = k) := fun hh => h.1 hh.symm
      simp only [insertNat, if_neg hne, List.cons_append,
        List.cons.injEq, true_and]
      exact ih h.2

/-- Folding fresh insertions appends the keyed pairs in order. -/
theorem foldl_insertNat (vals : List JVal) (m : List (String × Nat))
    (i : Nat) (hnd : (vals.map pyStr).Nodup)
    (hfr : ∀ v ∈ vals, pyStr v ∉ m.map Prod.fst) :
    List.foldl (fun mm v => insertNat mm (pyStr v) i) m vals
      = m ++ vals.map (fun v => (pyStr v, i)) := by
  induction vals generalizing m with
  | nil => simp
  | cons v rest ih =>
      simp only [List.foldl]
      rw [insertNat_fresh m (pyStr v) i (hfr v (List.mem_cons_self v rest))]
      have hnd0 : (pyStr v :: rest.map pyStr).Nodup := by simpa using hnd
      have h1 : (rest.map pyStr).Nodup := (List.nodup_cons.mp hnd0).2
      have h2 : ∀ w ∈ rest,
          pyStr w ∉ (m ++ [(pyStr v, i)]).map Prod.fst := by
        intro w hw
        simp only [List.map_append, List.mem_append]
        rintro (hc | hc)
        · exact hfr w (List.mem_cons_of_mem v hw) hc
        · simp only [List.map, List.mem_singleton] at hc
          exact (List.nodup_cons.mp hnd0).1
            (hc ▸ List.mem_map_of_mem pyStr hw)
      rw [ih _ h1 h2]
      simp

/-- The union variants loop accumulates exactly the spec's mapping as
long as the declared discriminator values do not collide. -/
theorem mapping_loop (env : Env) (df : String) (maxd d : Nat)
    (cfgs : List (String × FieldConfig)) :
    ∀ vs i m r,
      unionVariantsLoop env (some df) maxd d cfgs vs i m = .ok r →
      ((discPairs env df vs i).map Prod.fst).Nodup →
      (∀ k ∈ (discPairs env df vs i).map Prod.fst, k ∉ m.map Prod.fst) →
      r.2 = m ++ discPairs env df vs i := by
  intro vs
  induction vs with
  | nil =>
      intro i m r hr hnd hfr
      rw [unionVariantsLoop.eq_def] at hr
      cases hr
      simp [discPairs]
  | cons vt rest ih =>
      intro i m r hr hnd hfr
      rw [unionVariantsLoop.eq_def] at hr
      simp only [] at hr
      cases hP : parse_field env ("variant_" ++ toString i) {} vt maxd
          (d + 1) cfgs with
      | error e =>
          rw [hP] at hr
          cases hr
      | ok v0 =>
          rw [hP] at hr
          simp only [] at hr
          have hkeys : (discPairs env df (vt :: rest) i).map Prod.fst
              = (get_discriminator_values env vt df).map pyStr
                ++ (discPairs env df rest (i + 1)).map Prod.fst := by
            simp [discPairs, Function.comp]
          rw [hkeys] at hnd hfr
          obtain ⟨hnd1, hnd2, hdisj⟩ := List.nodup_append.mp hnd
          have hfr1 : ∀ v ∈ get_discriminator_values env vt df,
              pyStr v ∉ m.map Prod.fst := by
            intro v hv
            exact hfr (pyStr v)
              (List.mem_append_left _ (List.mem_map_of_mem pyStr hv))
          have hfold := foldl_insertNat (get_discriminator_values env vt df)
            m i hnd1 hfr1
          rw [hfold] at hr
          cases hL : unionVariantsLoop env (some df) maxd d cfgs rest (i + 1)
              (m ++ (get_discriminator_values env vt df).map
                (fun v => (pyStr v, i))) with
          | error e =>
              rw [hL] at hr
              cases hr
          | ok pr =>
              rw [hL] at hr
              cases hr
              have hfr2 : ∀ k ∈ (discPairs env df rest (i + 1)).map Prod.fst,
                  k ∉ (m ++ (get_discriminator_values env vt df).map
                    (fun v => (pyStr v, i))).map Prod.fst := by
                intro k hk
                simp only [List.map_append, List.mem_append, List.map_map]
                rintro (hc | hc)
                · exact hfr k (List.mem_append_right _ hk) hc
                · have hc2 : k ∈ (get_discriminator_values env vt df).map
                      pyStr := by
                    simpa [Function.comp] using hc
                  exact absurd hk (hdisj hc2)
              have hih := ih (i + 1)
                (m ++ (get_discriminator_values env vt df).map
                  (fun v => (pyStr v, i))) pr hL hnd2 hfr2
              simp only [hih, discPairs, List.append_assoc]

/-- C5: for a union with a string discriminator field, the resolver's
value-to-variant-index mapping is exactly the spec's table: walking the
variants in order, one entry per literal value declared on that
variant's discriminator field, each keyed by the value's string form
and pointing at the variant's zero-based index — so a variant declaring
several literal values contributes one entry per value, all with the
same index (provided the declared values do not collide across
variants). -/
theorem C5_discriminator_mapping (env : Env) (df : String) (maxd d : Nat)
    (cfgs : List (String × FieldConfig)) (vs : List PyType)
    (r : List JVal × List (String × Nat))
    (hnd : ((discPairs env df vs 0).map Prod.fst).Nodup)
    (hok : unionVariantsLoop env (some df) maxd d cfgs vs 0 [] = .ok r) :
    r.2 = discPairs env df vs 0 := by
  have h := mapping_loop env df maxd d cfgs vs 0 [] r hok hnd
    (by intro k hk; simp)
  simpa using h

/-- Whether a resolver step succeeded. -/
def isOkE {α : Type} : Except String α → Bool
  | .ok _ => true
  | .error _ => false

/-- With no record-type-keyed configs, config extraction never raises
(the crashing display merge is reached only when two layers exist). -/
theorem extract_empty_ok (fi : FieldInfo) (t : PyType) :
    isOkE (extract_field_config fi t []) = true := by
  cases hf : findFieldConfig fi.metadata with
  | some fc => simp [extract_field_config, hf, isOkE]
  | none =>
      cases t with
      | annotated base metas =>
          cases hm : findFieldConfig metas with
          | some fc => simp [extract_field_config, hf, hm, isOkE]
          | none => simp [extract_field_config, hf, hm, isOkE]
      | _ => simp [extract_field_config, hf, isOkE]

mutual

/-- With no record-type-keyed configs, `parse_field` never raises. -/
theorem okE_parse_field (env : Env) (name : String) (fi : FieldInfo)
    (t : PyType) (maxd d : Nat) :
    isOkE (parse_field env name fi t maxd d []) = true := by
  by_cases hguard : d ≥ maxd
  · rw [parse_field.eq_def, dif_pos hguard]
    rfl
  · rw [parse_field.eq_def, dif_neg hguard]
    split
    · -- Annotated
      rename_i base metas
      exact okE_parse_field env name fi base maxd d
    · -- Union
      rename_i args
      exact okE_parse_union env name fi args maxd d
    · -- Literal
      rename_i vals
      cases hE : extract_field_config fi (.literalT vals) [] with
      | error e =>
          have h := extract_empty_ok fi (.literalT vals)
          rw [hE] at h
          simp [isOkE] at h
      | ok fc => rfl
    · -- Enum
      rename_i ename evals
      cases hE : extract_field_config fi (.enumT ename evals) [] with
      | error e =>
          have h := extract_empty_ok fi (.enumT ename evals)
          rw [hE] at h
          simp [isOkE] at h
      | ok fc => rfl
    · -- List
      rename_i item_type
      cases hE : extract_field_config fi (.listT item_type) [] with
      | error e =>
          have h := extract_empty_ok fi (.listT item_type)
          rw [hE] at h
          simp [isOkE] at h
      | ok fc =>
          cases hI : parse_field env "item" {} item_type maxd (d + 1) [] with
          | error e =>
              have h := okE_parse_field env "item" {} item_type maxd (d + 1)
              rw [hI] at h
              simp [isOkE] at h
          | ok items => rfl
    · -- Set
      rename_i item_type
      cases hE : extract_field_config fi (.setT item_type) [] with
      | error e =>
          have h := extract_empty_ok fi (.setT item_type)
          rw [hE] at h
          simp [isOkE] at h
      | ok fc =>
          cases hI : parse_field env "item" {} item_type maxd (d + 1) [] with
          | error e =>
              have h := okE_parse_field env "item" {} item_type maxd (d + 1)
              rw [hI] at h
              simp [isOkE] at h
          | ok items => rfl
    · -- Tuple
      rename_i item_type
      cases hE : extract_field_config fi (.tupleT item_type) [] with
      | error e =>
          have h := extract_empty_ok fi (.tupleT item_type)
          rw [hE] at h
          simp [isOkE] at h
      | ok fc =>
          cases hI : parse_field env "item" {} item_type maxd (d + 1) [] with
          | error e =>
              have h := okE_parse_field env "item" {} item_type maxd (d + 1)
              rw [hI] at h
              simp [isOkE] at h
          | ok items => rfl
    · -- Dict
      rename_i key_type value_type
      cases hE : extract_field_config fi (.dictT key_type value_type) [] with
      | error e =>
          have h := extract_empty_ok fi (.dictT key_type value_type)
          rw [hE] at h
          simp [isOkE] at h
      | ok fc =>
          cases hI : parse_field env "value" {} value_type maxd (d + 1) [] with
          | error e =>
              have h := okE_parse_field env "value" {} value_type maxd (d + 1)
              rw [hI] at h
              simp [isOkE] at h
          | ok ap => rfl
    · -- nested model
      rename_i mname
      cases hM : parse_model env (env mname) maxd (d + 1) [] with
      | error e =>
          have h := okE_parse_model env (env mname) maxd (d + 1)
          rw [hM] at h
          simp [isOkE] at h
      | ok result =>
          cases hE : extract_field_config fi (.modelRef mname) [] with
          | error e =>
              have h := extract_empty_ok fi (.modelRef mname)
              rw [hE] at h
              simp [isOkE] at h
          | ok fcOpt =>
              cases fcOpt with
              | some fc => rfl
              | none => rfl
    · -- primitives / datetimes
      cases hE : extract_field_config fi t [] with
      | error e =>
          have h := extract_empty_ok fi t
          rw [hE] at h
          simp [isOkE] at h
      | ok fc => rfl
termination_by (maxd - d, 1, sizeOf t, 1)

/-- With no record-type-keyed configs, `parse_union_field` never
raises. -/
theorem okE_parse_union (env : Env) (name : String) (fi : FieldInfo)
    (args : List PyType) (maxd d : Nat) :
    isOkE (parse_union_field env name fi args maxd d []) = true := by
  rw [parse_union_field.eq_def]
  by_cases h1 : (args.filter notNoneType).length = 1
  · rw [dif_pos h1]
    simp only []
    have hsz : sizeOf (headOr (args.filter notNoneType) PyType.noneT)
        < sizeOf args := by
      rcases List.length_eq_one.mp h1 with ⟨a, ha⟩
      rw [ha]
      exact List.sizeOf_lt_of_mem
        (List.mem_of_mem_filter (ha.symm ▸ List.mem_singleton_self a))
    cases hP : parse_field env name fi
        (headOr (args.filter notNoneType) PyType.noneT) maxd d [] with
    | error e =>
        have h := okE_parse_field env name fi
          (headOr (args.filter notNoneType) PyType.noneT) maxd d
        rw [hP] at h
        simp [isOkE] at h
    | ok single => rfl
  · rw [dif_neg h1]
    simp only []
    cases hL : unionVariantsLoop env (discFieldOf fi) maxd d []
        (args.filter notNoneType) 0 [] with
    | error e =>
        have h := okE_loop env (discFieldOf fi) maxd d
          (args.filter notNoneType) 0 []
        rw [hL] at h
        simp [isOkE] at h
    | ok vm =>
        cases hE : extract_field_config fi .noneT [] with
        | error e =>
            have h := extract_empty_ok fi .noneT
            rw [hE] at h
            simp [isOkE] at h
        | ok fcOpt =>
            cases fcOpt with
            | some fc => rfl
            | none => rfl
termination_by (maxd - d, 1, sizeOf args, 1)
decreasing_by
  · apply Prod.Lex.right
    apply Prod.Lex.right
    exact Prod.Lex.left _ _ hsz
  · apply Prod.Lex.right
    apply Prod.Lex.right
    rcases Nat.lt_or_ge (sizeOf (args.filter notNoneType)) (sizeOf args)
        with hlt | hge
    · exact Prod.Lex.left _ _ hlt
    · have heq : sizeOf (args.filter notNoneType) = sizeOf args :=
        Nat.le_antisymm (sizeOf_filter_le notNoneType args) hge
      rw [heq]
      exact Prod.Lex.right _ (by omega)

/-- With no record-type-keyed configs, the union variants loop never
raises. -/
theorem okE_loop (env : Env) (discField : Option String) (maxd d : Nat)
    (vs : List PyType) (i : Nat) (m : List (String × Nat)) :
    isOkE (unionVariantsLoop env discField maxd d [] vs i m) = true :=
  match vs with
  | [] => by
    rw [unionVariantsLoop.eq_def]
    rfl
  | vt :: rest => by
    rw [unionVariantsLoop.eq_def]
    simp only []
    cases hP : parse_field env ("variant_" ++ toString i) {} vt maxd
        (d + 1) [] with
    | error e =>
        have h := okE_parse_field env ("variant_" ++ toString i) {} vt maxd
          (d + 1)
        rw [hP] at h
        simp [isOkE] at h
    | ok v0 =>
        simp only []
        cases discField with
        | some df =>
            simp only []
            cases hL2 : unionVariantsLoop env (some df) maxd d [] rest
                (i + 1) (List.foldl (fun mm vv => insertNat mm (pyStr vv) i)
                  m (get_discriminator_values env vt df)) with
            | error e =>
                have h := okE_loop env (some df) maxd d rest (i + 1)
                  (List.foldl (fun mm vv => insertNat mm (pyStr vv) i)
                    m (get_discriminator_values env vt df))
                rw [hL2] at h
                simp [isOkE] at h
            | ok pr => rfl
        | none =>
            simp only []
            cases hL2 : unionVariantsLoop env none maxd d [] rest
                (i + 1) m with
            | error e =>
                have h := okE_loop env none maxd d rest (i + 1) m
                rw [hL2] at h
                simp [isOkE] at h
            | ok pr => rfl
termination_by (maxd - d, 1, sizeOf vs, 0)
decreasing_by
  · rcases Nat.lt_or_ge (maxd - (d + 1)) (maxd - d) with hlt | hge
    · exact Prod.Lex.left _ _ hlt
    · have heq : maxd - (d + 1) = maxd - d := by omega
      rw [heq]
      apply Prod.Lex.right
      apply Prod.Lex.right
      exact Prod.Lex.left _ _
        (by try simp only [List.cons.sizeOf_spec]; omega)
  · apply Prod.Lex.right
    apply Prod.Lex.right
    exact Prod.Lex.left _ _
      (by try simp only [List.cons.sizeOf_spec]; omega)
  · apply Prod.Lex.right
    apply Prod.Lex.right
    exact Prod.Lex.left _ _
      (by try simp only [List.cons.sizeOf_spec]; omega)

/-- With no record-type-keyed configs, `parse_model` never raises. -/
theorem okE_parse_model (env : Env) (m : ModelDef) (maxd d : Nat) :
    isOkE (parse_model env m maxd d []) = true := by
  rw [parse_model.eq_def]
  split
  · rfl
  · cases hF : parseFields env maxd d [] m.fields with
    | error e =>
        have h := okE_parseFields env maxd d m.fields
        rw [hF] at h
        simp [isOkE] at h
    | ok flds => rfl
termination_by (maxd - d, 3, 0, 0)

/-- With no record-type-keyed configs, the model field loop never
raises. -/
theorem okE_parseFields (env : Env) (maxd d : Nat)
    (flds : List (String × FieldInfo)) :
    isOkE (parseFields env maxd d [] flds) = true :=
  match flds with
  | [] => by
    rw [parseFields.eq_def]
    rfl
  | (fname, fi) :: rest => by
    rw [parseFields.eq_def]
    simp only []
    cases hP : parse_field env fname fi (fi.ann.getD .strT) maxd d [] with
    | error e =>
        have h := okE_parse_field env fname fi (fi.ann.getD .strT) maxd d
        rw [hP] at h
        simp [isOkE] at h
    | ok fs =>
        simp only []
        cases hR : parseFields env maxd d [] rest with
        | error e =>
            have h := okE_parseFields env maxd d rest
            rw [hR] at h
            simp [isOkE] at h
        | ok rfs => rfl
termination_by (maxd - d, 2, sizeOf flds, 0)

end

/-- The Cat / Dog / Reptile environment of the discriminator claim:
`Reptile.pet_type` permits both `"reptile"` and `"lizard"`. -/
def envC5 : Env := fun n =>
  if n = "Cat" then
    { name := "Cat",
      fields := [("pet_type", { ann := some (.literalT [.s "cat"]) }),
                 ("meows", { ann := some .boolT })] }
  else if n = "Dog" then
    { name := "Dog",
      fields := [("pet_type", { ann := some (.literalT [.s "dog"]) }),
                 ("barks", { ann := some .boolT })] }
  else if n = "Reptile" then
    { name := "Reptile",
      fields := [("pet_type",
                  { ann := some (.literalT [.s "reptile", .s "lizard"]) }),
                 ("scales", { ann := some .boolT })] }
  else { name := n }

/-- The three variants of the discriminated union. -/
def vsC5 : List PyType := [.modelRef "Cat", .modelRef "Dog",
  .modelRef "Reptile"]

/-- Witness: the three-variant union with declared discriminator values
`{"cat"}`, `{"dog"}`, `{"reptile","lizard"}` yields exactly the 4-entry
mapping, with `"reptile"` and `"lizard"` both at index 2. -/
theorem C5_discriminator_mapping_witness :
    Except.map Prod.snd
        (unionVariantsLoop envC5 (some "pet_type") 10 0 [] vsC5 0 [])
      = .ok [("cat", 0), ("dog", 1), ("reptile", 2), ("lizard", 2)] ∧
    ([("cat", 0), ("dog", 1), ("reptile", 2), ("lizard", 2)]
      : List (String × Nat)).length = 4 := by
  constructor
  · cases hok : unionVariantsLoop envC5 (some "pet_type") 10 0 [] vsC5
        0 [] with
    | error e =>
        have h := okE_loop envC5 (some "pet_type") 10 0 vsC5 0 []
        rw [hok] at h
        simp [isOkE] at h
    | ok r =>
        have hmap := C5_discriminator_mapping envC5 "pet_type" 10 0 []
          vsC5 r (by decide) hok
        simp only [Except.map, hmap]
        rfl
  · rfl

end PydanticUI
